import Mathlib

set_option maxHeartbeats 1000000

/-! # Verification of the Level 2 graph-traversal engine

Shallow embedding of `src/level2/task_graph.py`, `src/level2/graph_traversal.py`,
`src/config.py` and `src/models/classification.py`.

Modelling conventions:
* Python `str` is `String`; Python lists are `List`.
* Python `float` weights are modelled as `ℚ` (written `mkRat n d` for the
  decimal literals of the source, e.g. `mkRat 3 2` for `1.5`); every weight
  appearing in the task graph is a short decimal, and the order of any two
  such values is the same in binary floating point and in `ℚ`.
* A Python `dict` is an association list (`List (key × value)`) read through
  `List.lookup`; its iteration order is the list order (CPython dicts iterate
  in insertion order, deterministically).
* A Python `set` is represented by a duplicate-free list whose order is
  arbitrary: every function consuming a set takes the enumeration as an
  argument, and the determinism theorems prove that the engine's output does
  not depend on the enumeration chosen.
* `raise ValueError` is modelled by `Except`: `.error` carries the id set
  named in the exception message.
* Scheduling-hint fields of a node (`min_validators`, `estimated_minutes`,
  `required_skills`) are read by no algorithm under verification and are
  omitted from the record.
-/

/-- `TaskGraphNode` from `src/level2/task_graph.py`. -/
structure TaskGraphNode where
  id : String
  description : String
  dimensions : List String
  dependencies : List String
  mandatory : Bool := false
  risk_weight : ℚ := 1
  deriving DecidableEq

/-- The ontology: `Dict[str, TaskGraphNode]` in insertion order. -/
abbrev Graph := List (String × TaskGraphNode)

/-- `self._graph.get(task_id)` (`None` for an absent key). -/
def Graph.get? (g : Graph) (task_id : String) : Option TaskGraphNode :=
  List.lookup task_id g

/-- A node's dependency list seen through `graph.get`: `[]` when the id does
not resolve, mirroring each guarded access `if node: ... node.dependencies`
in the source. -/
def depsOf (g : Graph) (t : String) : List String :=
  match g.get? t with
  | some n => n.dependencies
  | none => []

/-- `GraphConfig` from `src/config.py` (defaults included). -/
structure GraphConfig where
  dimension_threshold : ℚ := mkRat 1 5
  include_mandatory : Bool := true
  max_tasks : Nat := 20

/-- `ClassificationResult.dimensions`: an insertion-ordered mapping from
dimension name to weight. -/
abbrev Classification := List (String × ℚ)

/-- `ClassificationResult.get_active_dimensions`: dimensions whose weight is
`>=` the threshold, in dict order. -/
def get_active_dimensions (cls : Classification) (threshold : ℚ) : List String :=
  (cls.filter (fun p => threshold ≤ p.2)).map (·.1)

/-- `GraphTraversalEngine._should_activate`: a node activates when ANY of its
dimensions is active. -/
def should_activate (node : TaskGraphNode) (active_dimensions : List String) : Bool :=
  node.dimensions.any (fun d => decide (d ∈ active_dimensions))

/-- `get_mandatory_tasks` from `task_graph.py` (dict-insertion iteration
order). -/
def get_mandatory_tasks (g : Graph) : List TaskGraphNode :=
  (g.map (·.2)).filter (·.mandatory)

/-- Steps 1 and 2 of `get_required_tasks`: the seed set `activated_tasks`,
represented as a duplicate-free list.  Note that the source consults
`self.config.include_mandatory` nowhere: mandatory nodes are seeded
unconditionally, and the flag is dead (see the C3 theorems). -/
def activated_tasks (g : Graph) (cfg : GraphConfig) (cls : Classification) : List String :=
  let active := get_active_dimensions cls cfg.dimension_threshold
  ((get_mandatory_tasks g).map (·.id) ++
    (g.filter (fun p => should_activate p.2 active)).map (·.1)).dedup

/-- The inner scan of one node inside `_add_dependencies`: walk
`node.dependencies`, adding each id not yet in `all_required` (`.1`) both to
`all_required` and to the BFS queue tail (`.2`). -/
def scan_deps (deps : List String) (vis : List String) : List String × List String :=
  deps.foldl (fun p d => if d ∈ p.1 then p else (p.1 ++ [d], p.2 ++ [d])) (vis, [])

/-- The `while queue:` BFS loop of `_add_dependencies`.  Fuel-based: the fuel
chosen in `add_dependencies` is proved sufficient (`add_deps_loop_spec`). -/
def add_deps_loop (g : Graph) : Nat → List String → List String → List String
  | 0, _, vis => vis
  | _ + 1, [], vis => vis
  | fuel + 1, t :: queue, vis =>
    let p := scan_deps (depsOf g t) vis
    add_deps_loop g fuel (queue ++ p.2) p.1

/-- Total length of all dependency lists of the ontology. -/
def total_deps_length (g : Graph) : Nat :=
  (g.map (fun p => p.2.dependencies.length)).sum

/-- `GraphTraversalEngine._add_dependencies`, with the seed set passed as an
enumeration.  Returns the transitive closure as a duplicate-free list. -/
def add_dependencies (g : Graph) (seed : List String) : List String :=
  add_deps_loop g (seed.length + total_deps_length g) seed seed

/-- Python compares strings by code points; the kernel cannot evaluate the
built-in byte-iterator comparison, so `≤` is decided through the character
list, which carries the same order. -/
def strLEDec : DecidableRel ((· ≤ ·) : String → String → Prop) := fun a b =>
  decidable_of_iff (a.toList ≤ b.toList) String.le_iff_toList_le.symm

/-- `sorted(queue)`: Python sorts strings by code points, lexicographically,
which is exactly `String`'s linear order. -/
def sortQueue (q : List String) : List String :=
  @List.insertionSort String (· ≤ ·) strLEDec q

/-- The initial `in_degree` map of `_topological_sort`: dependencies counted
with multiplicity, restricted to ids of the subgraph; `0` for an id that does
not resolve. -/
def indeg (g : Graph) (ids : List String) (t : String) : Int :=
  ((depsOf g t).filter (fun d => decide (d ∈ ids))).length

/-- The update pass of Kahn's loop: for each `other_id` in `task_ids` whose
node's dependencies contain the just-placed `t`, decrement its in-degree,
collecting in `.2` (in iteration order) the ids whose degree reached zero. -/
def dec_pass (g : Graph) (ids : List String) (t : String) (deg : String → Int) :
    (String → Int) × List String :=
  ids.foldl
    (fun p o =>
      if t ∈ depsOf g o then
        let v := p.1 o - 1
        (fun x => if x = o then v else p.1 x, if v = 0 then p.2 ++ [o] else p.2)
      else p)
    (deg, [])

/-- The `while queue:` loop of `_topological_sort` (fuel `ids.length` is
sufficient because every id is enqueued at most once). -/
def kahn_loop (g : Graph) (ids : List String) :
    Nat → List String → (String → Int) → List String → List String
  | 0, _, _, acc => acc
  | fuel + 1, queue, deg, acc =>
    match sortQueue queue with
    | [] => acc
    | t :: rest =>
      let p := dec_pass g ids t deg
      kahn_loop g ids fuel (rest ++ p.2) p.1 (acc ++ [t])

/-- The `sorted_tasks` list computed by `_topological_sort` before the cycle
check. -/
def kahn_list (g : Graph) (ids : List String) : List String :=
  kahn_loop g ids ids.length
    (ids.filter (fun t => decide (indeg g ids t = 0)))
    (indeg g ids) []

/-- `GraphTraversalEngine._topological_sort`: the `raise ValueError` on a
detected cycle becomes `.error` carrying `task_ids - set(sorted_tasks)`, the
set named in the message. -/
def topological_sort (g : Graph) (ids : List String) :
    Except (Finset String) (List String) :=
  if (kahn_list g ids).length = ids.length then .ok (kahn_list g ids)
  else .error (ids.toFinset \ (kahn_list g ids).toFinset)

/-- `priority_key`: the tuple `(0 if mandatory else 1, -risk_weight,
len(dependencies))`, compared lexicographically as Python compares tuples;
`(1, 0.0, 0)` for an id that does not resolve. -/
def priority_key (g : Graph) (task_id : String) : ℕ ×ₗ (ℚ ×ₗ ℕ) :=
  match g.get? task_id with
  | none => toLex (1, toLex ((0 : ℚ), 0))
  | some node =>
    toLex (if node.mandatory then 0 else 1,
      toLex (-node.risk_weight, node.dependencies.length))

/-- The sort relation for a Python stable `list.sort(key=...)`: compare keys,
break ties by original position. -/
def keyRel {κ : Type} [LinearOrder κ] (key : String → κ) (p q : ℕ × String) : Prop :=
  toLex (key p.2, p.1) ≤ toLex (key q.2, q.1)

instance keyRelDec {κ : Type} [LinearOrder κ] (key : String → κ) :
    DecidableRel (keyRel key) :=
  fun _ _ => inferInstanceAs (Decidable (_ ≤ _))

instance keyRelTotal {κ : Type} [LinearOrder κ] (key : String → κ) :
    IsTotal (ℕ × String) (keyRel key) :=
  ⟨fun p q => le_total (toLex (key p.2, p.1)) (toLex (key q.2, q.1))⟩

instance keyRelTrans {κ : Type} [LinearOrder κ] (key : String → κ) :
    IsTrans (ℕ × String) (keyRel key) :=
  ⟨fun _ _ _ hab hbc => le_trans hab hbc⟩

/-- Python's `list.sort(key=...)` is stable: modelled by sorting the
index-tagged list with the original index as the final tiebreaker. -/
def sort_by_key {κ : Type} [LinearOrder κ] (key : String → κ) (l : List String) :
    List String :=
  (List.insertionSort (keyRel key) l.enum).map Prod.snd

/-- The default node `TaskGraphNode("", "", [], [])` used by
`_prioritize_tasks` for an id that does not resolve. -/
def defaultNode : TaskGraphNode :=
  { id := "", description := "", dimensions := [], dependencies := [] }

/-- `GraphTraversalEngine._prioritize_tasks`. -/
def prioritize_tasks (g : Graph) (ordered_tasks : List String) : List String :=
  let mandatory := ordered_tasks.filter (fun t => ((g.get? t).getD defaultNode).mandatory)
  let non_mandatory := ordered_tasks.filter (fun t => decide (t ∉ mandatory))
  mandatory ++ sort_by_key (priority_key g) non_mandatory

/-- Steps 4 and 5 of `get_required_tasks`, taking the already-computed closure
set enumeration `all_required`. -/
def order_and_limit (g : Graph) (cfg : GraphConfig) (all_required : List String) :
    Except (Finset String) (List String) :=
  match topological_sort g all_required with
  | .error s => .error s
  | .ok ordered_tasks =>
    .ok (if cfg.max_tasks < ordered_tasks.length
         then (prioritize_tasks g ordered_tasks).take cfg.max_tasks
         else ordered_tasks)

/-- `GraphTraversalEngine.get_required_tasks`, with the two internal set
enumerations fixed to canonical representatives; the C1 theorem proves that
any other enumerations of the same sets produce the same output. -/
def get_required_tasks (g : Graph) (cfg : GraphConfig) (cls : Classification) :
    Except (Finset String) (List String) :=
  order_and_limit g cfg (add_dependencies g (activated_tasks g cfg cls))

/-- The weight function local to `calculate_coverage`: `risk_weight` of the
node, defaulting to `1.0` when the id does not resolve. -/
def get_weight (g : Graph) (task_id : String) : ℚ :=
  match g.get? task_id with
  | some node => node.risk_weight
  | none => 1

/-- `GraphTraversalEngine.calculate_coverage`. -/
def calculate_coverage (g : Graph) (executed_tasks required_tasks : List String) : ℚ :=
  if required_tasks = [] then 1
  else
    let required_weight := (required_tasks.map (get_weight g)).sum
    let executed_weight :=
      ((executed_tasks.filter (fun t => decide (t ∈ required_tasks))).map (get_weight g)).sum
    if 0 < required_weight then executed_weight / required_weight else 1

/-- The reason list `explain_selection` builds for one selected id. -/
def reasons_for (g : Graph) (active_dims : List String) (required : List String)
    (task_id : String) (node : TaskGraphNode) : List String :=
  let r1 : List String := if node.mandatory then ["Mandatory task - always required"] else []
  let matching_dims := node.dimensions.filter (fun d => decide (d ∈ active_dims))
  let r2 : List String :=
    if matching_dims = [] then []
    else ["Activated by dimensions: " ++ String.intercalate ", " matching_dims]
  let r3 : List String :=
    match required.find? (fun o => decide (task_id ∈ depsOf g o)) with
    | some other_id => ["Required as dependency of: " ++ other_id]
    | none => []
  let rs := r1 ++ r2 ++ r3
  if rs = [] then ["Unknown reason"] else rs

/-- `GraphTraversalEngine.explain_selection` (the result dict as an
insertion-ordered association list; ids that do not resolve are skipped by the
`continue`). -/
def explain_selection (g : Graph) (cfg : GraphConfig) (cls : Classification) :
    Except (Finset String) (List (String × List String)) :=
  match get_required_tasks g cfg cls with
  | .error s => .error s
  | .ok required_tasks =>
    let active_dims := get_active_dimensions cls cfg.dimension_threshold
    .ok (required_tasks.filterMap
      (fun task_id =>
        (g.get? task_id).map
          (fun node => (task_id, reasons_for g active_dims required_tasks task_id node))))

/-- `VERIFICATION_TASK_GRAPH` from `src/level2/task_graph.py`, insertion order
preserved. -/
def VERIFICATION_TASK_GRAPH : Graph := [
  ("baseline_correctness_check",
    { id := "baseline_correctness_check",
      description := "Verify basic functional correctness - the system does what it claims",
      dimensions := ["correctness"], dependencies := [],
      mandatory := true, risk_weight := 2 }),
  ("input_validation_test",
    { id := "input_validation_test",
      description := "Test input boundary conditions and edge cases",
      dimensions := ["correctness", "security"],
      dependencies := ["baseline_correctness_check"], risk_weight := mkRat 3 2 }),
  ("output_format_validation",
    { id := "output_format_validation",
      description := "Verify output format matches specification",
      dimensions := ["correctness", "compatibility"],
      dependencies := ["baseline_correctness_check"], risk_weight := mkRat 6 5 }),
  ("error_handling_test",
    { id := "error_handling_test",
      description := "Test error conditions and exception handling",
      dimensions := ["correctness", "reliability"],
      dependencies := ["baseline_correctness_check"], risk_weight := mkRat 3 2 }),
  ("throughput_benchmark",
    { id := "throughput_benchmark",
      description := "Measure sustained request throughput (requests per second)",
      dimensions := ["performance"],
      dependencies := ["baseline_correctness_check"], risk_weight := mkRat 3 2 }),
  ("latency_profile",
    { id := "latency_profile",
      description := "Measure response time distribution (p50, p95, p99)",
      dimensions := ["performance"],
      dependencies := ["baseline_correctness_check"], risk_weight := mkRat 3 2 }),
  ("sustained_load_test",
    { id := "sustained_load_test",
      description := "Extended duration load testing for stability",
      dimensions := ["performance", "reliability"],
      dependencies := ["throughput_benchmark", "latency_profile"], risk_weight := mkRat 9 5 }),
  ("resource_utilization_profile",
    { id := "resource_utilization_profile",
      description := "Measure CPU, memory, and I/O usage under load",
      dimensions := ["performance", "scalability"],
      dependencies := ["throughput_benchmark"], risk_weight := mkRat 13 10 }),
  ("cold_start_test",
    { id := "cold_start_test",
      description := "Measure initialization and warm-up time",
      dimensions := ["performance"],
      dependencies := ["baseline_correctness_check"], risk_weight := 1 }),
  ("auth_boundary_test",
    { id := "auth_boundary_test",
      description := "Verify authentication boundaries are enforced",
      dimensions := ["security"],
      dependencies := ["baseline_correctness_check"], risk_weight := 2 }),
  ("authorization_test",
    { id := "authorization_test",
      description := "Verify authorization rules are correctly enforced",
      dimensions := ["security"],
      dependencies := ["auth_boundary_test"], risk_weight := 2 }),
  ("rate_limiting_test",
    { id := "rate_limiting_test",
      description := "Verify rate limiting behavior under abuse",
      dimensions := ["security", "performance"],
      dependencies := ["auth_boundary_test"], risk_weight := mkRat 3 2 }),
  ("injection_vulnerability_scan",
    { id := "injection_vulnerability_scan",
      description := "Test for SQL, command, and other injection vulnerabilities",
      dimensions := ["security"],
      dependencies := ["input_validation_test"], risk_weight := mkRat 5 2 }),
  ("data_exposure_test",
    { id := "data_exposure_test",
      description := "Check for unintended data exposure in responses",
      dimensions := ["security"],
      dependencies := ["baseline_correctness_check"], risk_weight := 2 }),
  ("encryption_verification",
    { id := "encryption_verification",
      description := "Verify data encryption at rest and in transit",
      dimensions := ["security"],
      dependencies := ["baseline_correctness_check"], risk_weight := 2 }),
  ("failure_recovery_test",
    { id := "failure_recovery_test",
      description := "Test behavior after failures and recovery",
      dimensions := ["reliability"],
      dependencies := ["error_handling_test"], risk_weight := mkRat 9 5 }),
  ("graceful_degradation_test",
    { id := "graceful_degradation_test",
      description := "Verify system degrades gracefully under stress",
      dimensions := ["reliability", "performance"],
      dependencies := ["sustained_load_test"], risk_weight := mkRat 3 2 }),
  ("idempotency_test",
    { id := "idempotency_test",
      description := "Verify operations are safely repeatable",
      dimensions := ["reliability", "correctness"],
      dependencies := ["baseline_correctness_check"], risk_weight := mkRat 3 2 }),
  ("timeout_handling_test",
    { id := "timeout_handling_test",
      description := "Test timeout scenarios and handling",
      dimensions := ["reliability"],
      dependencies := ["baseline_correctness_check"], risk_weight := mkRat 13 10 }),
  ("horizontal_scaling_test",
    { id := "horizontal_scaling_test",
      description := "Verify performance scales with added instances",
      dimensions := ["scalability", "performance"],
      dependencies := ["sustained_load_test"], risk_weight := mkRat 3 2 }),
  ("concurrent_user_test",
    { id := "concurrent_user_test",
      description := "Test behavior under high concurrent user load",
      dimensions := ["scalability", "performance"],
      dependencies := ["throughput_benchmark"], risk_weight := mkRat 3 2 }),
  ("data_volume_test",
    { id := "data_volume_test",
      description := "Test behavior with large data volumes",
      dimensions := ["scalability", "performance"],
      dependencies := ["baseline_correctness_check"], risk_weight := mkRat 13 10 }),
  ("determinism_test",
    { id := "determinism_test",
      description := "Verify outputs are deterministic given same inputs",
      dimensions := ["reproducibility", "correctness"],
      dependencies := ["baseline_correctness_check"], risk_weight := mkRat 3 2 }),
  ("environment_parity_test",
    { id := "environment_parity_test",
      description := "Verify behavior is consistent across environments",
      dimensions := ["reproducibility"],
      dependencies := ["baseline_correctness_check"], risk_weight := mkRat 13 10 }),
  ("build_reproducibility_test",
    { id := "build_reproducibility_test",
      description := "Verify build process produces identical artifacts",
      dimensions := ["reproducibility"], dependencies := [], risk_weight := mkRat 6 5 }),
  ("api_contract_test",
    { id := "api_contract_test",
      description := "Verify API adheres to documented contract",
      dimensions := ["compatibility", "correctness"],
      dependencies := ["baseline_correctness_check"], risk_weight := mkRat 3 2 }),
  ("backward_compatibility_test",
    { id := "backward_compatibility_test",
      description := "Verify backward compatibility with previous versions",
      dimensions := ["compatibility"],
      dependencies := ["api_contract_test"], risk_weight := mkRat 9 5 }),
  ("integration_test",
    { id := "integration_test",
      description := "Verify integration with external systems",
      dimensions := ["compatibility"],
      dependencies := ["baseline_correctness_check"], risk_weight := mkRat 3 2 }),
  ("documentation_accuracy_check",
    { id := "documentation_accuracy_check",
      description := "Verify documentation matches actual behavior",
      dimensions := ["documentation"],
      dependencies := ["baseline_correctness_check"], risk_weight := 1 }),
  ("api_documentation_completeness",
    { id := "api_documentation_completeness",
      description := "Verify all API endpoints are documented",
      dimensions := ["documentation"], dependencies := [], risk_weight := 1 }),
  ("example_code_verification",
    { id := "example_code_verification",
      description := "Verify example code in documentation works",
      dimensions := ["documentation", "correctness"],
      dependencies := ["documentation_accuracy_check"], risk_weight := mkRat 6 5 })]

/-- Short name for the concrete ontology. -/
abbrev VG : Graph := VERIFICATION_TASK_GRAPH

/-- The list `get_required_tasks` returns on the concrete ontology (the
`.error` branch is proved unreachable for `VG`). -/
def select_list (cfg : GraphConfig) (cls : Classification) : List String :=
  match get_required_tasks VG cfg cls with
  | .ok l => l
  | .error _ => []

/-- The closure set computed inside `get_required_tasks` on the concrete
ontology. -/
def closure_vg (cfg : GraphConfig) (cls : Classification) : List String :=
  add_dependencies VG (activated_tasks VG cfg cls)

/-- The topologically ordered list computed inside `get_required_tasks` on
the concrete ontology, before the `max_tasks` check. -/
def ordered_vg (cfg : GraphConfig) (cls : Classification) : List String :=
  kahn_list VG (closure_vg cfg cls)

/-- The `mandatory` partition built by `_prioritize_tasks` (kept in relative
order). -/
def mandatory_part (g : Graph) (l : List String) : List String :=
  l.filter (fun t => ((Graph.get? g t).getD defaultNode).mandatory)

/-- The `non_mandatory` partition of `_prioritize_tasks`. -/
def non_mandatory_part (g : Graph) (l : List String) : List String :=
  l.filter (fun t => ! ((Graph.get? g t).getD defaultNode).mandatory)

/-- The truncation scenario configuration: defaults except `max_tasks = 2`. -/
def cfgTrunc : GraphConfig :=
  { dimension_threshold := mkRat 1 5, include_mandatory := true, max_tasks := 2 }

/-- A classification activating only the `compatibility` dimension. -/
def clsCompat : Classification := [("compatibility", mkRat 1 2)]

/-- A classification activating only the `performance` dimension (weight 0.3). -/
def clsPerf : Classification := [("performance", mkRat 3 10)]

/-! ## Definitions used by the proofs -/

/-- One dependency edge: `d` appears in the dependency list of (resolved) `t`. -/
def DepStep (g : Graph) (t d : String) : Prop :=
  d ∈ depsOf g t

/-- Reachability along dependency edges. -/
abbrev Reaches (g : Graph) : String → String → Prop :=
  Relation.ReflTransGen (DepStep g)

/-- A list of ids closed under (resolved) dependencies. -/
def DepsClosed (g : Graph) (l : List String) : Prop :=
  ∀ t ∈ l, ∀ d ∈ depsOf g t, d ∈ l

/-- Every id the BFS of `_add_dependencies` can ever visit: the seed plus
every id occurring in some dependency list of the ontology. -/
def bfs_univ (g : Graph) (seed : List String) : List String :=
  seed ++ (g.map (fun p => p.2.dependencies)).flatten

/-- An edge of the subgraph induced by `ids`: `a` is a dependency of `b` and
both belong to `ids`. -/
def StepIn (g : Graph) (ids : List String) (a b : String) : Prop :=
  a ∈ ids ∧ b ∈ ids ∧ a ∈ depsOf g b

/-- The subgraph induced by `ids` contains a (dependency) cycle. -/
def HasCycle (g : Graph) (ids : List String) : Prop :=
  ∃ t ∈ ids, Relation.TransGen (StepIn g ids) t t

/-- `TopoFrom g ids seen l`: scanning `l` left to right, every dependency
(inside `ids`) of each element has already been seen. -/
def TopoFrom (g : Graph) (ids : List String) : List String → List String → Prop
  | _, [] => True
  | seen, t :: rest =>
    (∀ d ∈ depsOf g t, d ∈ ids → d ∈ seen) ∧ TopoFrom g ids (seen ++ [t]) rest

/-- The loop invariant of `kahn_loop`: `acc` is the topologically placed
prefix, `deg` the current in-degree map, and `queue` holds exactly the ready
(zero-degree, unplaced) ids. -/
structure KahnInv (g : Graph) (ids : List String) (queue : List String)
    (deg : String → Int) (acc : List String) : Prop where
  acc_nodup : acc.Nodup
  acc_sub : ∀ a ∈ acc, a ∈ ids
  queue_nodup : queue.Nodup
  queue_sub : ∀ q ∈ queue, q ∈ ids
  disj : ∀ a ∈ acc, a ∉ queue
  deg_eq : ∀ t ∈ ids,
    deg t = indeg g ids t - ((acc.filter (fun p => decide (p ∈ depsOf g t))).length : Int)
  ready_iff : ∀ t ∈ ids, t ∉ acc → (t ∈ queue ↔ deg t = 0)
  topo : TopoFrom g ids [] acc

/-- A rank certificate for `VERIFICATION_TASK_GRAPH`: every dependency edge
strictly decreases it (`VG_rank_decreasing` below), hence the concrete
ontology is acyclic. -/
def rankVG (t : String) : Nat :=
  (((([
    ("baseline_correctness_check", 0),
    ("build_reproducibility_test", 0),
    ("api_documentation_completeness", 0),
    ("sustained_load_test", 2),
    ("resource_utilization_profile", 2),
    ("authorization_test", 2),
    ("rate_limiting_test", 2),
    ("injection_vulnerability_scan", 2),
    ("failure_recovery_test", 2),
    ("backward_compatibility_test", 2),
    ("example_code_verification", 2),
    ("concurrent_user_test", 2),
    ("graceful_degradation_test", 3),
    ("horizontal_scaling_test", 3)]) : List (String × Nat)).lookup t).getD 1)

/-- The reason list exactly as claim C9 describes it: "mandatory" if the node
is mandatory, then activation by the intersection of the node's dimensions
with the active-dimension set if non-empty, then the first OTHER selected id
(in final selection order) whose dependency set contains this id, if any.
This is the spec-side definition compared against `reasons_for` (which is the
source-side one). -/
def spec_reasons (g : Graph) (active_dims : List String) (required : List String)
    (task_id : String) (node : TaskGraphNode) : List String :=
  (if node.mandatory then ["Mandatory task - always required"] else []) ++
  (let matching_dims := node.dimensions.filter (fun d => decide (d ∈ active_dims))
   if matching_dims = [] then []
   else ["Activated by dimensions: " ++ String.intercalate ", " matching_dims]) ++
  (match required.find? (fun o => decide (o ≠ task_id) && decide (task_id ∈ depsOf g o)) with
   | some other_id => ["Required as dependency of: " ++ other_id]
   | none => [])

/-- A tiny ontology containing an unresolvable dependency id (`"ghost"` has
no node). -/
def ghostGraph : Graph :=
  [("b",
    { id := "b", description := "", dimensions := [], dependencies := ["ghost"],
      mandatory := true })]

/-- The test-only two-node cyclic ontology A→B→A from the spec's cycle
scenario. -/
def cycleGraph : Graph :=
  [("A", { id := "A", description := "", dimensions := ["x"], dependencies := ["B"] }),
   ("B", { id := "B", description := "", dimensions := ["x"], dependencies := ["A"] })]

/-! ## Generic list lemmas -/

theorem mem_of_lookup {g : Graph} {t : String} {n : TaskGraphNode}
    (h : g.get? t = some n) : (t, n) ∈ g := by
  induction g with
  | nil => simp [Graph.get?, List.lookup] at h
  | cons p g ih =>
    rw [Graph.get?, List.lookup] at h
    split at h
    next heq =>
      have ht : t = p.1 := by simpa using heq
      have hn : p.2 = n := by simpa using h
      rw [List.mem_cons]
      left
      rw [ht, ← hn]
    next =>
      exact List.mem_cons_of_mem _ (ih h)

theorem lookup_isSome_of_mem {g : Graph} {t : String} {n : TaskGraphNode}
    (h : (t, n) ∈ g) : (g.get? t).isSome := by
  induction g with
  | nil => simp at h
  | cons p g ih =>
    rw [Graph.get?, List.lookup]
    split
    next => simp
    next heq =>
      rcases List.mem_cons.1 h with he | hm
      · have ht : t = p.1 := by rw [← he]
        simp [ht] at heq
      · exact ih hm

theorem depsOf_subset_flatten {g : Graph} {t d : String} (h : d ∈ depsOf g t) :
    d ∈ (g.map (fun p => p.2.dependencies)).flatten := by
  rw [depsOf] at h
  rcases hl : g.get? t with _ | n
  · rw [hl] at h
    simp at h
  · rw [hl] at h
    exact List.mem_flatten.2 ⟨n.dependencies, List.mem_map_of_mem _ (mem_of_lookup hl), h⟩

theorem nodup_subset_length {l₁ l₂ : List String} (h₁ : l₁.Nodup)
    (h : ∀ x ∈ l₁, x ∈ l₂) : l₁.length ≤ l₂.length := by
  have hc : l₁.toFinset.card = l₁.length := List.toFinset_card_of_nodup h₁
  have hsub : l₁.toFinset ⊆ l₂.toFinset := by
    intro x hx
    rw [List.mem_toFinset] at hx ⊢
    exact h x hx
  calc l₁.length = l₁.toFinset.card := hc.symm
    _ ≤ l₂.toFinset.card := Finset.card_le_card hsub
    _ ≤ l₂.length := List.toFinset_card_le l₂

theorem filter_sublist_filter_of_imp {α : Type} {p q : α → Bool} :
    ∀ {l : List α}, (∀ x ∈ l, p x = true → q x = true) →
      (l.filter p).Sublist (l.filter q) := by
  intro l
  induction l with
  | nil => intro _; simp
  | cons a l ih =>
    intro h
    have ih' := ih fun x hx hpx => h x (List.mem_cons_of_mem _ hx) hpx
    cases hp : p a with
    | false =>
      cases hq : q a with
      | false => simpa [List.filter_cons, hp, hq] using ih'
      | true =>
        simp only [List.filter_cons, hp, hq, if_true, if_false, cond_true, cond_false]
        exact ih'.cons a
    | true =>
      have hq := h a (List.mem_cons_self a l) hp
      simp only [List.filter_cons, hp, hq, cond_true]
      exact ih'.cons₂ a

theorem count_filter_comm {l₁ l₂ : List String} (h₁ : l₁.Nodup) (h₂ : l₂.Nodup) :
    (l₁.filter (fun x => decide (x ∈ l₂))).length
      = (l₂.filter (fun x => decide (x ∈ l₁))).length := by
  have key : ∀ (a b : List String), a.Nodup →
      (a.filter (fun x => decide (x ∈ b))).toFinset = a.toFinset ∩ b.toFinset := by
    intro a b _
    ext x
    simp [List.mem_filter]
  have c₁ : (l₁.filter (fun x => decide (x ∈ l₂))).length
      = (l₁.toFinset ∩ l₂.toFinset).card := by
    rw [← key l₁ l₂ h₁]
    exact (List.toFinset_card_of_nodup (h₁.filter _)).symm
  have c₂ : (l₂.filter (fun x => decide (x ∈ l₁))).length
      = (l₂.toFinset ∩ l₁.toFinset).card := by
    rw [← key l₂ l₁ h₂]
    exact (List.toFinset_card_of_nodup (h₂.filter _)).symm
  rw [c₁, c₂, Finset.inter_comm]

/-! ## Lemmas about `_add_dependencies` -/

theorem scan_foldl_pair (deps : List String) :
    ∀ (v w : List String),
      deps.foldl (fun p d => if d ∈ p.1 then p else (p.1 ++ [d], p.2 ++ [d])) (v, w)
        = ((scan_deps deps v).1, w ++ (scan_deps deps v).2) := by
  induction deps with
  | nil => intro v w; simp [scan_deps]
  | cons d deps ih =>
    intro v w
    by_cases hd : d ∈ v
    · rw [List.foldl_cons, if_pos hd]
      rw [ih v w]
      have he : scan_deps (d :: deps) v = scan_deps deps v := by
        rw [scan_deps, List.foldl_cons, if_pos hd]
        rfl
      rw [he]
    · rw [List.foldl_cons, if_neg hd]
      rw [ih (v ++ [d]) (w ++ [d])]
      have he : scan_deps (d :: deps) v
          = ((scan_deps deps (v ++ [d])).1, [d] ++ (scan_deps deps (v ++ [d])).2) := by
        rw [scan_deps, List.foldl_cons, if_neg hd]
        exact ih (v ++ [d]) [d]
      rw [he]
      simp

theorem scan_deps_spec :
    ∀ (deps vis : List String), vis.Nodup →
      (scan_deps deps vis).1 = vis ++ (scan_deps deps vis).2 ∧
      (scan_deps deps vis).1.Nodup ∧
      (∀ x, x ∈ (scan_deps deps vis).1 ↔ x ∈ vis ∨ x ∈ deps) ∧
      (scan_deps deps vis).2.length ≤ deps.length ∧
      (∀ x ∈ (scan_deps deps vis).2, x ∈ deps) := by
  intro deps
  induction deps with
  | nil =>
    intro vis h
    refine ⟨by simp [scan_deps], by simpa [scan_deps] using h, ?_, by simp [scan_deps], by simp [scan_deps]⟩
    intro x
    simp [scan_deps]
  | cons d deps ih =>
    intro vis h
    by_cases hd : d ∈ vis
    · have he : scan_deps (d :: deps) vis = scan_deps deps vis := by
        rw [scan_deps, List.foldl_cons, if_pos hd]
        rfl
      obtain ⟨e1, e2, e3, e4, e5⟩ := ih vis h
      rw [he]
      refine ⟨e1, e2, ?_, le_trans e4 (by simp), fun x hx => List.mem_cons_of_mem _ (e5 x hx)⟩
      intro x
      rw [e3 x]
      constructor
      · rintro (hx | hx)
        · exact Or.inl hx
        · exact Or.inr (List.mem_cons_of_mem _ hx)
      · rintro (hx | hx)
        · exact Or.inl hx
        · rcases List.mem_cons.1 hx with rfl | hx
          · exact Or.inl hd
          · exact Or.inr hx
    · have he : scan_deps (d :: deps) vis
          = ((scan_deps deps (vis ++ [d])).1, d :: (scan_deps deps (vis ++ [d])).2) := by
        rw [scan_deps, List.foldl_cons, if_neg hd]
        dsimp only
        rw [List.nil_append]
        rw [scan_foldl_pair deps (vis ++ [d]) [d]]
        simp
      have hnd : (vis ++ [d]).Nodup := by
        simp [List.nodup_append, h, hd]
      obtain ⟨e1, e2, e3, e4, e5⟩ := ih (vis ++ [d]) hnd
      rw [he]
      refine ⟨?_, e2, ?_, ?_, ?_⟩
      · rw [e1]
        simp
      · intro x
        rw [e3 x]
        simp only [List.mem_append, List.mem_singleton, List.mem_cons]
        tauto
      · simpa using Nat.succ_le_succ e4
      · intro x hx
        rcases List.mem_cons.1 hx with rfl | hx
        · exact List.mem_cons_self _ _
        · exact List.mem_cons_of_mem _ (e5 x hx)

theorem bfs_univ_length (g : Graph) (seed : List String) :
    (bfs_univ g seed).length = seed.length + total_deps_length g := by
  rw [bfs_univ, List.length_append, total_deps_length]
  congr 1
  rw [List.length_flatten, List.map_map]
  rfl

theorem add_deps_loop_spec (g : Graph) (seed : List String) :
    ∀ (fuel : Nat) (queue vis : List String),
      vis.Nodup →
      (∀ x ∈ queue, x ∈ vis) →
      (∀ x ∈ vis, x ∈ queue ∨ ∀ d ∈ depsOf g x, d ∈ vis) →
      (∀ x ∈ vis, ∃ a ∈ seed, Reaches g a x) →
      (∀ x ∈ vis, x ∈ bfs_univ g seed) →
      (bfs_univ g seed).length + queue.length ≤ fuel + vis.length →
      (add_deps_loop g fuel queue vis).Nodup ∧
      (∀ x ∈ vis, x ∈ add_deps_loop g fuel queue vis) ∧
      DepsClosed g (add_deps_loop g fuel queue vis) ∧
      (∀ x ∈ add_deps_loop g fuel queue vis, ∃ a ∈ seed, Reaches g a x) := by
  intro fuel
  induction fuel with
  | zero =>
    intro queue vis hnd hqv hproc hreach huniv hfuel
    have hvu : vis.length ≤ (bfs_univ g seed).length := nodup_subset_length hnd huniv
    have hq : queue = [] := by
      cases queue with
      | nil => rfl
      | cons t rest => simp at hfuel; omega
    subst hq
    refine ⟨by simpa [add_deps_loop] using hnd, by simp [add_deps_loop], ?_, ?_⟩
    · intro t ht d hd
      rcases hproc t (by simpa [add_deps_loop] using ht) with h | h
      · simp at h
      · simpa [add_deps_loop] using h d hd
    · intro x hx
      exact hreach x (by simpa [add_deps_loop] using hx)
  | succ fuel ih =>
    intro queue vis hnd hqv hproc hreach huniv hfuel
    cases queue with
    | nil =>
      refine ⟨by simpa [add_deps_loop] using hnd, by simp [add_deps_loop], ?_, ?_⟩
      · intro t ht d hd
        rcases hproc t (by simpa [add_deps_loop] using ht) with h | h
        · simp at h
        · simpa [add_deps_loop] using h d hd
      · intro x hx
        exact hreach x (by simpa [add_deps_loop] using hx)
    | cons t rest =>
      obtain ⟨e1, e2, e3, e4, e5⟩ := scan_deps_spec (depsOf g t) vis hnd
      have hloop : add_deps_loop g (fuel + 1) (t :: rest) vis
          = add_deps_loop g fuel (rest ++ (scan_deps (depsOf g t) vis).2)
              (scan_deps (depsOf g t) vis).1 := rfl
      rw [hloop]
      have hsub : ∀ x ∈ vis, x ∈ (scan_deps (depsOf g t) vis).1 := by
        intro x hx
        exact (e3 x).2 (Or.inl hx)
      have happlied := ih (rest ++ (scan_deps (depsOf g t) vis).2)
        (scan_deps (depsOf g t) vis).1 e2
        (by
          intro x hx
          rcases List.mem_append.1 hx with hx | hx
          · exact hsub x (hqv x (List.mem_cons_of_mem _ hx))
          · rw [e1]
            exact List.mem_append.2 (Or.inr hx))
        (by
          intro x hx
          rw [e1] at hx
          rcases List.mem_append.1 hx with hx | hx
          · rcases hproc x hx with hq | hclosed
            · rcases List.mem_cons.1 hq with rfl | hq
              · right
                intro d hd
                exact (e3 d).2 (Or.inr hd)
              · left
                exact List.mem_append.2 (Or.inl hq)
            · right
              intro d hd
              exact hsub d (hclosed d hd)
          · left
            exact List.mem_append.2 (Or.inr hx))
        (by
          intro x hx
          rw [e1] at hx
          rcases List.mem_append.1 hx with hx | hx
          · exact hreach x hx
          · obtain ⟨a, ha, hr⟩ := hreach t (hqv t (List.mem_cons_self _ _))
            exact ⟨a, ha, hr.tail (e5 x hx)⟩)
        (by
          intro x hx
          rw [e1] at hx
          rcases List.mem_append.1 hx with hx | hx
          · exact huniv x hx
          · rw [bfs_univ]
            exact List.mem_append.2 (Or.inr (depsOf_subset_flatten (e5 x hx))))
        (by
          have hv : (scan_deps (depsOf g t) vis).1.length
              = vis.length + (scan_deps (depsOf g t) vis).2.length := by
            rw [e1, List.length_append]
          simp only [List.length_append, hv]
          simp only [List.length_cons] at hfuel
          omega)
      obtain ⟨r1, r2, r3, r4⟩ := happlied
      exact ⟨r1, fun x hx => r2 x (hsub x hx), r3, r4⟩

theorem add_deps_loop_converged (g : Graph) (seed : List String) :
    ∀ (fuel : Nat) (queue vis : List String),
      vis.Nodup →
      (∀ x ∈ vis, x ∈ bfs_univ g seed) →
      (bfs_univ g seed).length + queue.length ≤ fuel + vis.length →
      add_deps_loop g (fuel + 1) queue vis = add_deps_loop g fuel queue vis := by
  intro fuel
  induction fuel with
  | zero =>
    intro queue vis hnd huniv hfuel
    have hvu : vis.length ≤ (bfs_univ g seed).length := nodup_subset_length hnd huniv
    have hq : queue = [] := by
      cases queue with
      | nil => rfl
      | cons t rest => simp at hfuel; omega
    subst hq
    rfl
  | succ fuel ih =>
    intro queue vis hnd huniv hfuel
    cases queue with
    | nil => rfl
    | cons t rest =>
      obtain ⟨e1, e2, _, _, e5⟩ := scan_deps_spec (depsOf g t) vis hnd
      have hstep : ∀ f, add_deps_loop g (f + 1) (t :: rest) vis
          = add_deps_loop g f (rest ++ (scan_deps (depsOf g t) vis).2)
              (scan_deps (depsOf g t) vis).1 := fun _ => rfl
      rw [hstep (fuel + 1), hstep fuel]
      refine ih _ _ e2 ?_ ?_
      · intro x hx
        rw [e1] at hx
        rcases List.mem_append.1 hx with hx | hx
        · exact huniv x hx
        · rw [bfs_univ]
          exact List.mem_append.2 (Or.inr (depsOf_subset_flatten (e5 x hx)))
      · have hv : (scan_deps (depsOf g t) vis).1.length
            = vis.length + (scan_deps (depsOf g t) vis).2.length := by
          rw [e1, List.length_append]
        simp only [List.length_append, hv]
        simp only [List.length_cons] at hfuel
        omega

/-- Fuel adequacy: the fuel chosen in `add_dependencies` is exact, so adding
any extra fuel leaves the result unchanged.  This identifies the fueled loop
with the unbounded `while queue:` loop of `_add_dependencies`. -/
theorem add_dependencies_fuel_sufficient (g : Graph) (seed : List String)
    (h : seed.Nodup) (k : Nat) :
    add_deps_loop g (seed.length + total_deps_length g + k) seed seed
      = add_dependencies g seed := by
  induction k with
  | zero => rfl
  | succ k ih =>
    rw [← ih]
    exact add_deps_loop_converged g seed (seed.length + total_deps_length g + k)
      seed seed h
      (fun x hx => by rw [bfs_univ]; exact List.mem_append.2 (Or.inl hx))
      (by rw [bfs_univ_length]; omega)

theorem add_dependencies_spec (g : Graph) (seed : List String) (h : seed.Nodup) :
    (add_dependencies g seed).Nodup ∧
    (∀ x ∈ seed, x ∈ add_dependencies g seed) ∧
    DepsClosed g (add_dependencies g seed) ∧
    (∀ x ∈ add_dependencies g seed, ∃ a ∈ seed, Reaches g a x) := by
  have := add_deps_loop_spec g seed (seed.length + total_deps_length g) seed seed
    h (fun x hx => hx) (fun x hx => Or.inl hx)
    (fun x hx => ⟨x, hx, Relation.ReflTransGen.refl⟩)
    (fun x hx => by rw [bfs_univ]; exact List.mem_append.2 (Or.inl hx))
    (by rw [bfs_univ_length])
  exact this

theorem mem_add_dependencies {g : Graph} {seed : List String} (h : seed.Nodup) (x : String) :
    x ∈ add_dependencies g seed ↔ ∃ a ∈ seed, Reaches g a x := by
  obtain ⟨_, hseed, hclosed, hreach⟩ := add_dependencies_spec g seed h
  constructor
  · exact hreach x
  · rintro ⟨a, ha, hr⟩
    induction hr with
    | refl => exact hseed a ha
    | tail _ hstep ih => exact hclosed _ ih _ hstep

theorem add_dependencies_perm (g : Graph) {s₁ s₂ : List String}
    (h₁ : s₁.Nodup) (hp : s₁.Perm s₂) :
    (add_dependencies g s₁).Perm (add_dependencies g s₂) := by
  have h₂ : s₂.Nodup := hp.nodup_iff.1 h₁
  rw [List.perm_ext_iff_of_nodup (add_dependencies_spec g s₁ h₁).1
    (add_dependencies_spec g s₂ h₂).1]
  intro a
  rw [mem_add_dependencies h₁, mem_add_dependencies h₂]
  constructor
  · rintro ⟨b, hb, hr⟩
    exact ⟨b, hp.mem_iff.1 hb, hr⟩
  · rintro ⟨b, hb, hr⟩
    exact ⟨b, hp.mem_iff.2 hb, hr⟩

/-! ## Lemmas about the Kahn loop of `_topological_sort` -/

theorem sortQueue_perm (q : List String) : (sortQueue q).Perm q :=
  @List.perm_insertionSort String (· ≤ ·) strLEDec q

theorem sortQueue_eq_of_perm {q₁ q₂ : List String} (h : q₁.Perm q₂) :
    sortQueue q₁ = sortQueue q₂ :=
  List.eq_of_perm_of_sorted ((sortQueue_perm q₁).trans (h.trans (sortQueue_perm q₂).symm))
    (@List.sorted_insertionSort String (· ≤ ·) strLEDec inferInstance inferInstance q₁)
    (@List.sorted_insertionSort String (· ≤ ·) strLEDec inferInstance inferInstance q₂)

theorem mem_of_maximal_nodup {l ids : List String} (hl : l.Nodup) (hids : ids.Nodup)
    (hsub : ∀ x ∈ l, x ∈ ids) (hlen : ids.length ≤ l.length) :
    ∀ x ∈ ids, x ∈ l := by
  have h1 : l.toFinset ⊆ ids.toFinset := by
    intro x hx
    rw [List.mem_toFinset] at hx ⊢
    exact hsub x hx
  have h2 : ids.toFinset.card ≤ l.toFinset.card := by
    rw [List.toFinset_card_of_nodup hl, List.toFinset_card_of_nodup hids]
    exact hlen
  have heq := Finset.eq_of_subset_of_card_le h1 h2
  intro x hx
  have hx2 : x ∈ l.toFinset := by
    rw [heq]
    exact List.mem_toFinset.2 hx
  exact List.mem_toFinset.1 hx2

theorem deg_zero_iff (g : Graph) {ids : List String} {t : String}
    (hdepsnd : (depsOf g t).Nodup)
    {acc : List String} (hacc : acc.Nodup) (hsub : ∀ a ∈ acc, a ∈ ids) :
    indeg g ids t - ((acc.filter (fun p => decide (p ∈ depsOf g t))).length : Int) = 0
      ↔ ∀ d ∈ depsOf g t, d ∈ ids → d ∈ acc := by
  have hcnt : (acc.filter (fun p => decide (p ∈ depsOf g t))).length
      = ((depsOf g t).filter (fun d => decide (d ∈ acc))).length :=
    count_filter_comm hacc hdepsnd
  have hsubl : ((depsOf g t).filter (fun d => decide (d ∈ acc))).Sublist
      ((depsOf g t).filter (fun d => decide (d ∈ ids))) :=
    filter_sublist_filter_of_imp (fun x _ hx => by
      simp only [decide_eq_true_eq] at hx ⊢
      exact hsub x hx)
  rw [indeg, hcnt]
  constructor
  · intro h d hd hdids
    have hlen : ((depsOf g t).filter (fun d => decide (d ∈ acc))).length
        = ((depsOf g t).filter (fun d => decide (d ∈ ids))).length := by omega
    have heq := hsubl.eq_of_length hlen
    have hdmem : d ∈ (depsOf g t).filter (fun d => decide (d ∈ ids)) := by
      simp only [List.mem_filter, decide_eq_true_eq]
      exact ⟨hd, hdids⟩
    rw [← heq] at hdmem
    simp only [List.mem_filter, decide_eq_true_eq] at hdmem
    exact hdmem.2
  · intro h
    have hsubl2 : ((depsOf g t).filter (fun d => decide (d ∈ ids))).Sublist
        ((depsOf g t).filter (fun d => decide (d ∈ acc))) :=
      filter_sublist_filter_of_imp (fun x hx hxi => by
        simp only [decide_eq_true_eq] at hxi ⊢
        exact h x hx hxi)
    have h1 := hsubl.length_le
    have h2 := hsubl2.length_le
    omega

theorem dec_foldl_spec (g : Graph) (t : String) :
    ∀ (os : List String), os.Nodup → ∀ (deg : String → Int) (w : List String),
      (∀ x, (os.foldl (fun (p : (String → Int) × List String) o =>
          if t ∈ depsOf g o then
            let v := p.1 o - 1
            (fun x => if x = o then v else p.1 x, if v = 0 then p.2 ++ [o] else p.2)
          else p) (deg, w)).1 x
          = if x ∈ os ∧ t ∈ depsOf g x then deg x - 1 else deg x) ∧
      ((os.foldl (fun (p : (String → Int) × List String) o =>
          if t ∈ depsOf g o then
            let v := p.1 o - 1
            (fun x => if x = o then v else p.1 x, if v = 0 then p.2 ++ [o] else p.2)
          else p) (deg, w)).2
          = w ++ os.filter (fun o => decide (t ∈ depsOf g o) && decide (deg o = 1))) := by
  intro os
  induction os with
  | nil =>
    intro _ deg w
    constructor
    · intro x
      simp
    · simp
  | cons o os ih =>
    intro hnd deg w
    have hnod : o ∉ os := (List.nodup_cons.1 hnd).1
    have hnd2 : os.Nodup := (List.nodup_cons.1 hnd).2
    by_cases hto : t ∈ depsOf g o
    · obtain ⟨ihd, ihw⟩ := ih hnd2 (fun y => if y = o then deg o - 1 else deg y)
        (if deg o - 1 = 0 then w ++ [o] else w)
      constructor
      · intro x
        rw [List.foldl_cons]
        dsimp only
        rw [if_pos hto]
        rw [ihd x]
        by_cases hx : x = o
        · subst hx
          simp [hnod, hto]
        · simp [hx, List.mem_cons]
      · rw [List.foldl_cons]
        dsimp only
        rw [if_pos hto]
        rw [ihw]
        have hfc : os.filter (fun o2 => decide (t ∈ depsOf g o2) &&
              decide ((if o2 = o then deg o - 1 else deg o2) = 1))
            = os.filter (fun o2 => decide (t ∈ depsOf g o2) && decide (deg o2 = 1)) := by
          apply List.filter_congr
          intro x hx
          have hxo : ¬ x = o := fun he => hnod (he ▸ hx)
          rw [if_neg hxo]
        rw [hfc]
        rw [List.filter_cons]
        by_cases hdeg : deg o = 1
        · have hz : deg o - 1 = 0 := by omega
          rw [if_pos hz]
          have hcond : (decide (t ∈ depsOf g o) && decide (deg o = 1)) = true := by
            simp [hto, hdeg]
          rw [hcond]
          simp
        · have hz : ¬ deg o - 1 = 0 := by omega
          rw [if_neg hz]
          have hcond : (decide (t ∈ depsOf g o) && decide (deg o = 1)) = false := by
            simp [hdeg]
          rw [hcond]
          simp
    · obtain ⟨ihd, ihw⟩ := ih hnd2 deg w
      constructor
      · intro x
        rw [List.foldl_cons]
        dsimp only
        rw [if_neg hto]
        rw [ihd x]
        by_cases hx : x = o
        · subst hx
          simp [hto]
        · simp only [List.mem_cons, hx, false_or]
      · rw [List.foldl_cons]
        dsimp only
        rw [if_neg hto]
        rw [ihw]
        rw [List.filter_cons]
        have : (decide (t ∈ depsOf g o) && decide (deg o = 1)) = false := by
          simp [hto]
        rw [this]
        simp

theorem dec_pass_deg (g : Graph) (ids : List String) (t : String) (deg : String → Int)
    (h : ids.Nodup) (x : String) :
    (dec_pass g ids t deg).1 x
      = if x ∈ ids ∧ t ∈ depsOf g x then deg x - 1 else deg x := by
  rw [dec_pass]
  exact (dec_foldl_spec g t ids h deg []).1 x

theorem dec_pass_appends (g : Graph) (ids : List String) (t : String) (deg : String → Int)
    (h : ids.Nodup) :
    (dec_pass g ids t deg).2
      = ids.filter (fun o => decide (t ∈ depsOf g o) && decide (deg o = 1)) := by
  rw [dec_pass]
  have := (dec_foldl_spec g t ids h deg []).2
  simpa using this

theorem topoFrom_append (g : Graph) (ids : List String) :
    ∀ (l seen : List String) (t : String),
      TopoFrom g ids seen (l ++ [t]) ↔
        (TopoFrom g ids seen l ∧ ∀ d ∈ depsOf g t, d ∈ ids → d ∈ seen ++ l) := by
  intro l
  induction l with
  | nil =>
    intro seen t
    simp [TopoFrom]
  | cons a l ih =>
    intro seen t
    simp only [List.cons_append, List.append_eq, TopoFrom]
    rw [ih (seen ++ [a]) t]
    rw [List.append_assoc, List.singleton_append]
    tauto

theorem topoFrom_ordering (g : Graph) (ids : List String) :
    ∀ (l seen : List String), TopoFrom g ids seen l → (seen ++ l).Nodup →
      ∀ b ∈ l, ∀ d ∈ depsOf g b, d ∈ ids →
        d ∈ seen ∨ (d ∈ l ∧ List.indexOf d l < List.indexOf b l) := by
  intro l
  induction l with
  | nil =>
    intro seen _ _ b hb
    simp at hb
  | cons t rest ih =>
    intro seen htopo hnd b hb d hd hdids
    obtain ⟨h1, h2⟩ := htopo
    have hnd2 : ((seen ++ [t]) ++ rest).Nodup := by
      rw [List.append_assoc, List.singleton_append]
      exact hnd
    have htrest : t ∉ rest := by
      have hsplit := List.nodup_append.1 hnd2
      have hdisj := hsplit.2.2
      exact fun hmem => hdisj (by simp : t ∈ seen ++ [t]) hmem
    rcases List.mem_cons.1 hb with rfl | hbr
    · exact Or.inl (h1 d hd hdids)
    · rcases ih (seen ++ [t]) h2 hnd2 b hbr d hd hdids with hds | ⟨hdr, hlt⟩
      · rcases List.mem_append.1 hds with hds | hdt
        · exact Or.inl hds
        · have hdt2 : d = t := by simpa using hdt
          subst hdt2
          refine Or.inr ⟨List.mem_cons_self _ _, ?_⟩
          rw [List.indexOf_cons_self]
          have hbt : b ≠ d := fun he => htrest (he ▸ hbr)
          rw [List.indexOf_cons_ne rest (fun he => hbt he.symm)]
          omega
      · have hdt : d ≠ t := fun he => htrest (he ▸ hdr)
        have hbt : b ≠ t := fun he => htrest (he ▸ hbr)
        refine Or.inr ⟨List.mem_cons_of_mem _ hdr, ?_⟩
        rw [List.indexOf_cons_ne rest (fun he => hdt he.symm),
          List.indexOf_cons_ne rest (fun he => hbt he.symm)]
        omega

theorem kahn_inv_init (g : Graph) (ids : List String) (hids : ids.Nodup) :
    KahnInv g ids (ids.filter (fun t => decide (indeg g ids t = 0))) (indeg g ids) [] := by
  refine ⟨List.nodup_nil, by simp, hids.filter _, ?_, by simp, ?_, ?_, trivial⟩
  · intro q hq
    exact (List.mem_filter.1 hq).1
  · intro t _
    simp
  · intro t ht _
    simp [List.mem_filter, ht]

theorem kahn_step (g : Graph) (ids : List String) (hids : ids.Nodup)
    (hdeps : ∀ t ∈ ids, (depsOf g t).Nodup)
    {queue : List String} {deg : String → Int} {acc : List String} {t : String}
    {rest : List String} (inv : KahnInv g ids queue deg acc)
    (hsort : sortQueue queue = t :: rest) :
    KahnInv g ids (rest ++ (dec_pass g ids t deg).2) (dec_pass g ids t deg).1
      (acc ++ [t]) := by
  have hperm : (t :: rest).Perm queue := hsort ▸ sortQueue_perm queue
  have htq : t ∈ queue := hperm.mem_iff.1 (List.mem_cons_self _ _)
  have hcnodup : (t :: rest).Nodup := hperm.nodup_iff.2 inv.queue_nodup
  have htnr : t ∉ rest := (List.nodup_cons.1 hcnodup).1
  have hrnodup : rest.Nodup := (List.nodup_cons.1 hcnodup).2
  have hrq : ∀ x ∈ rest, x ∈ queue := fun x hx => hperm.mem_iff.1 (List.mem_cons_of_mem _ hx)
  have htids : t ∈ ids := inv.queue_sub t htq
  have htacc : t ∉ acc := fun h => inv.disj t h htq
  have hdegt : deg t = 0 := (inv.ready_iff t htids htacc).1 htq
  have hqacc : ∀ x ∈ queue, x ∉ acc := fun x hx hxa => inv.disj x hxa hx
  have hdz : ∀ x ∈ ids, (deg x = 0 ↔ ∀ d ∈ depsOf g x, d ∈ ids → d ∈ acc) := by
    intro x hx
    rw [inv.deg_eq x hx]
    exact deg_zero_iff g (hdeps x hx) inv.acc_nodup inv.acc_sub
  have htdeps : ∀ d ∈ depsOf g t, d ∈ ids → d ∈ acc := (hdz t htids).1 hdegt
  have hacc_closed : ∀ b ∈ acc, ∀ d ∈ depsOf g b, d ∈ ids → d ∈ acc := by
    intro b hb d hd hdi
    have hor := topoFrom_ordering g ids acc [] inv.topo (by simpa using inv.acc_nodup)
      b hb d hd hdi
    rcases hor with h | ⟨h, _⟩
    · simp at h
    · exact h
  have hacc_deg : ∀ b ∈ acc, deg b = 0 := fun b hb =>
    (hdz b (inv.acc_sub b hb)).2 (hacc_closed b hb)
  have happ := dec_pass_appends g ids t deg hids
  have hdg := dec_pass_deg g ids t deg hids
  have happ_mem : ∀ x, x ∈ (dec_pass g ids t deg).2
      ↔ (x ∈ ids ∧ t ∈ depsOf g x ∧ deg x = 1) := by
    intro x
    rw [happ, List.mem_filter]
    simp [and_assoc]
  have hqnot : ∀ x ∈ queue, t ∉ depsOf g x := by
    intro x hx hmem
    have hxids := inv.queue_sub x hx
    have hxacc := hqacc x hx
    have hx0 : deg x = 0 := (inv.ready_iff x hxids hxacc).1 hx
    exact htacc ((hdz x hxids).1 hx0 t hmem htids)
  refine ⟨?_, ?_, ?_, ?_, ?_, ?_, ?_, ?_⟩
  · exact List.Nodup.append inv.acc_nodup (List.nodup_singleton t)
      (fun a ha hat => htacc ((List.mem_singleton.1 hat) ▸ ha))
  · intro a ha
    rcases List.mem_append.1 ha with h | h
    · exact inv.acc_sub a h
    · exact (List.mem_singleton.1 h) ▸ htids
  · refine List.Nodup.append hrnodup (by rw [happ]; exact hids.filter _) ?_
    intro x hxr hxa
    have hxq : x ∈ queue := hrq x hxr
    have hx0 : deg x = 0 := (inv.ready_iff x (inv.queue_sub x hxq) (hqacc x hxq)).1 hxq
    obtain ⟨_, _, hx1⟩ := (happ_mem x).1 hxa
    omega
  · intro q hq
    rcases List.mem_append.1 hq with h | h
    · exact inv.queue_sub q (hrq q h)
    · exact ((happ_mem q).1 h).1
  · intro a ha hmem
    rcases List.mem_append.1 ha with haa | hat
    · rcases List.mem_append.1 hmem with h | h
      · exact inv.disj a haa (hrq a h)
      · obtain ⟨_, _, h1⟩ := (happ_mem a).1 h
        have h0 := hacc_deg a haa
        omega
    · have hat2 : a = t := List.mem_singleton.1 hat
      subst hat2
      rcases List.mem_append.1 hmem with h | h
      · exact htnr h
      · obtain ⟨_, _, h1⟩ := (happ_mem a).1 h
        omega
  · intro x hx
    rw [hdg x]
    have hsplit : ((acc ++ [t]).filter (fun p => decide (p ∈ depsOf g x))).length
        = (acc.filter (fun p => decide (p ∈ depsOf g x))).length
          + (if t ∈ depsOf g x then 1 else 0) := by
      rw [List.filter_append, List.length_append]
      congr 1
      by_cases hmem : t ∈ depsOf g x
      · simp [hmem]
      · simp [hmem]
    rw [hsplit, inv.deg_eq x hx]
    by_cases hmem : t ∈ depsOf g x
    · rw [if_pos ⟨hx, hmem⟩, if_pos hmem]
      push_cast
      ring
    · rw [if_neg (fun hc => hmem hc.2), if_neg hmem]
      push_cast
      ring
  · intro x hx hxacc2
    have hxacc : x ∉ acc := fun h => hxacc2 (List.mem_append.2 (Or.inl h))
    have hxt : x ≠ t := fun h => hxacc2 (List.mem_append.2 (Or.inr (by simp [h])))
    rw [hdg x]
    constructor
    · intro hmem
      rcases List.mem_append.1 hmem with hr | ha
      · have hxq : x ∈ queue := hrq x hr
        have hx0 : deg x = 0 := (inv.ready_iff x hx hxacc).1 hxq
        have hnotdep : t ∉ depsOf g x := hqnot x hxq
        rw [if_neg (fun hc => hnotdep hc.2)]
        exact hx0
      · obtain ⟨_, hdep, h1⟩ := (happ_mem x).1 ha
        rw [if_pos ⟨hx, hdep⟩, h1]
        norm_num
    · intro h0
      by_cases hdep : t ∈ depsOf g x
      · rw [if_pos ⟨hx, hdep⟩] at h0
        have h1 : deg x = 1 := by omega
        exact List.mem_append.2 (Or.inr ((happ_mem x).2 ⟨hx, hdep, h1⟩))
      · rw [if_neg (fun hc => hdep hc.2)] at h0
        have hxq : x ∈ queue := (inv.ready_iff x hx hxacc).2 h0
        have hxc : x ∈ t :: rest := hperm.mem_iff.2 hxq
        rcases List.mem_cons.1 hxc with he | hr
        · exact absurd he hxt
        · exact List.mem_append.2 (Or.inl hr)
  · exact (topoFrom_append g ids acc [] t).2
      ⟨inv.topo, fun d hd hdi => by simpa using htdeps d hd hdi⟩

theorem kahn_loop_succ (g : Graph) (ids : List String) (fuel : Nat)
    (queue : List String) (deg : String → Int) (acc : List String) :
    kahn_loop g ids (fuel + 1) queue deg acc =
      match sortQueue queue with
      | [] => acc
      | t :: rest =>
        kahn_loop g ids fuel (rest ++ (dec_pass g ids t deg).2) (dec_pass g ids t deg).1
          (acc ++ [t]) := rfl

theorem kahn_loop_main (g : Graph) (ids : List String) (hids : ids.Nodup)
    (hdeps : ∀ t ∈ ids, (depsOf g t).Nodup) :
    ∀ (fuel : Nat) (queue : List String) (deg : String → Int) (acc : List String),
      KahnInv g ids queue deg acc →
      ids.length ≤ fuel + acc.length →
      (kahn_loop g ids fuel queue deg acc).Nodup ∧
      (∀ x ∈ kahn_loop g ids fuel queue deg acc, x ∈ ids) ∧
      TopoFrom g ids [] (kahn_loop g ids fuel queue deg acc) ∧
      (∀ x ∈ acc, x ∈ kahn_loop g ids fuel queue deg acc) ∧
      (∀ t2 ∈ ids, t2 ∉ kahn_loop g ids fuel queue deg acc →
        ∃ d ∈ depsOf g t2, d ∈ ids ∧ d ∉ kahn_loop g ids fuel queue deg acc) := by
  intro fuel
  induction fuel with
  | zero =>
    intro queue deg acc inv hlen
    have hall : ∀ x ∈ ids, x ∈ acc :=
      mem_of_maximal_nodup inv.acc_nodup hids inv.acc_sub (by omega)
    refine ⟨inv.acc_nodup, inv.acc_sub, inv.topo, fun x hx => hx, ?_⟩
    intro t2 ht2 hnot
    exact absurd (hall t2 ht2) hnot
  | succ fuel ih =>
    intro queue deg acc inv hlen
    rcases hsq : sortQueue queue with _ | ⟨t, rest⟩
    · have hqnil : queue = [] := by
        have hp := (sortQueue_perm queue).symm
        rw [hsq] at hp
        exact hp.eq_nil
      have hres : kahn_loop g ids (fuel + 1) queue deg acc = acc := by
        rw [kahn_loop_succ, hsq]
      rw [hres]
      refine ⟨inv.acc_nodup, inv.acc_sub, inv.topo, fun x hx => hx, ?_⟩
      intro t2 ht2 hnot
      have hdnz : deg t2 ≠ 0 := by
        intro h0
        have hq := (inv.ready_iff t2 ht2 hnot).2 h0
        rw [hqnil] at hq
        simp at hq
      have hiff := deg_zero_iff g (hdeps t2 ht2) inv.acc_nodup inv.acc_sub
      rw [← inv.deg_eq t2 ht2] at hiff
      have hnall : ¬ ∀ d ∈ depsOf g t2, d ∈ ids → d ∈ acc := fun hc => hdnz (hiff.2 hc)
      push_neg at hnall
      exact hnall
    · have inv2 := kahn_step g ids hids hdeps inv hsq
      have hres : kahn_loop g ids (fuel + 1) queue deg acc
          = kahn_loop g ids fuel (rest ++ (dec_pass g ids t deg).2)
              (dec_pass g ids t deg).1 (acc ++ [t]) := by
        rw [kahn_loop_succ, hsq]
      rw [hres]
      have hlen2 : ids.length ≤ fuel + (acc ++ [t]).length := by
        rw [List.length_append]
        simp only [List.length_singleton]
        omega
      obtain ⟨r1, r2, r3, r4, r5⟩ := ih _ _ _ inv2 hlen2
      exact ⟨r1, r2, r3, fun x hx => r4 x (List.mem_append.2 (Or.inl hx)), r5⟩

theorem kahn_loop_converged (g : Graph) (ids : List String) (hids : ids.Nodup)
    (hdeps : ∀ t ∈ ids, (depsOf g t).Nodup) :
    ∀ (fuel : Nat) (queue : List String) (deg : String → Int) (acc : List String),
      KahnInv g ids queue deg acc →
      ids.length ≤ fuel + acc.length →
      kahn_loop g ids (fuel + 1) queue deg acc = kahn_loop g ids fuel queue deg acc := by
  intro fuel
  induction fuel with
  | zero =>
    intro queue deg acc inv hlen
    have hall : ∀ x ∈ ids, x ∈ acc :=
      mem_of_maximal_nodup inv.acc_nodup hids inv.acc_sub (by omega)
    have hqnil : queue = [] := by
      cases hq : queue with
      | nil => rfl
      | cons t rest =>
        have htq : t ∈ queue := by rw [hq]; exact List.mem_cons_self _ _
        exact absurd htq (inv.disj t (hall t (inv.queue_sub t htq)))
    subst hqnil
    rfl
  | succ fuel ih =>
    intro queue deg acc inv hlen
    rcases hsq : sortQueue queue with _ | ⟨t, rest⟩
    · rw [kahn_loop_succ, kahn_loop_succ, hsq]
    · rw [kahn_loop_succ, kahn_loop_succ, hsq]
      exact ih _ _ _ (kahn_step g ids hids hdeps inv hsq)
        (by simp only [List.length_append, List.length_singleton]; omega)

/-- Fuel adequacy: the fuel `ids.length` chosen in `kahn_list` is exact, so any
extra fuel leaves the result unchanged.  This identifies the fueled loop with
the unbounded `while queue:` loop of `_topological_sort`. -/
theorem kahn_list_fuel_sufficient (g : Graph) (ids : List String) (hids : ids.Nodup)
    (hdeps : ∀ t ∈ ids, (depsOf g t).Nodup) (k : Nat) :
    kahn_loop g ids (ids.length + k)
      (ids.filter (fun t => decide (indeg g ids t = 0))) (indeg g ids) []
      = kahn_list g ids := by
  induction k with
  | zero => rfl
  | succ k ih =>
    rw [← ih]
    exact kahn_loop_converged g ids hids hdeps (ids.length + k) _ _ _
      (kahn_inv_init g ids hids) (by simp)

theorem kahn_list_spec (g : Graph) (ids : List String) (hids : ids.Nodup)
    (hdeps : ∀ t ∈ ids, (depsOf g t).Nodup) :
    (kahn_list g ids).Nodup ∧
    (∀ x ∈ kahn_list g ids, x ∈ ids) ∧
    TopoFrom g ids [] (kahn_list g ids) ∧
    (∀ t2 ∈ ids, t2 ∉ kahn_list g ids →
      ∃ d ∈ depsOf g t2, d ∈ ids ∧ d ∉ kahn_list g ids) := by
  obtain ⟨r1, r2, r3, _, r5⟩ := kahn_loop_main g ids hids hdeps ids.length
    (ids.filter (fun t => decide (indeg g ids t = 0))) (indeg g ids) []
    (kahn_inv_init g ids hids) (by simp)
  exact ⟨r1, r2, r3, r5⟩

theorem cycle_of_stuck (g : Graph) (ids : List String) (S : Finset String)
    (hne : S.Nonempty)
    (hS : ∀ t ∈ S, ∃ d ∈ S, StepIn g ids d t) :
    ∃ t ∈ S, Relation.TransGen (StepIn g ids) t t := by
  classical
  have hf : ∀ t : String, ∃ d : String, t ∈ S → (d ∈ S ∧ StepIn g ids d t) := by
    intro t
    by_cases ht : t ∈ S
    · obtain ⟨d, hd, hstep⟩ := hS t ht
      exact ⟨d, fun _ => ⟨hd, hstep⟩⟩
    · exact ⟨t, fun h => absurd h ht⟩
  choose f hfspec using hf
  obtain ⟨t₀, ht₀⟩ := hne
  have hiter : ∀ n : ℕ, f^[n] t₀ ∈ S := by
    intro n
    induction n with
    | zero => simpa using ht₀
    | succ n ihn =>
      rw [Function.iterate_succ_apply']
      exact (hfspec _ ihn).1
  have hchain : ∀ (k : ℕ) (x : String), x ∈ S → 0 < k →
      Relation.TransGen (StepIn g ids) (f^[k] x) x := by
    intro k
    induction k with
    | zero =>
      intro x _ h
      exact absurd h (lt_irrefl 0)
    | succ k ihk =>
      intro x hx _
      rcases Nat.eq_zero_or_pos k with hk | hk
      · subst hk
        simpa using Relation.TransGen.single (hfspec x hx).2
      · have hfx : f x ∈ S := (hfspec x hx).1
        have hc := ihk (f x) hfx hk
        rw [Function.iterate_succ_apply]
        exact hc.tail (hfspec x hx).2
  have key : ∀ (m n : ℕ), m < n → f^[m] t₀ = f^[n] t₀ →
      ∃ t ∈ S, Relation.TransGen (StepIn g ids) t t := by
    intro m n hmn he
    refine ⟨f^[m] t₀, hiter m, ?_⟩
    have hk : 0 < n - m := by omega
    have hc := hchain (n - m) (f^[m] t₀) (hiter m) hk
    have hit : f^[n - m] (f^[m] t₀) = f^[m] t₀ := by
      rw [← Function.iterate_add_apply]
      have hnm : n - m + m = n := by omega
      rw [hnm, ← he]
    rw [hit] at hc
    exact hc
  have hcard : S.card < (Finset.univ : Finset (Fin (S.card + 1))).card := by
    rw [Finset.card_univ, Fintype.card_fin]
    omega
  obtain ⟨i, _, j, _, hij, heq⟩ :=
    Finset.exists_ne_map_eq_of_card_lt_of_maps_to hcard
      (fun (i : Fin (S.card + 1)) _ => hiter i.1)
  rcases lt_or_gt_of_ne hij with hlt | hgt
  · exact key i.1 j.1 hlt heq
  · exact key j.1 i.1 hgt heq.symm

theorem kahn_list_complete (g : Graph) (ids : List String) (hids : ids.Nodup)
    (hdeps : ∀ t ∈ ids, (depsOf g t).Nodup) (hnc : ¬ HasCycle g ids) :
    (∀ x, x ∈ kahn_list g ids ↔ x ∈ ids) ∧ (kahn_list g ids).length = ids.length := by
  obtain ⟨r1, r2, _, r5⟩ := kahn_list_spec g ids hids hdeps
  have hall : ∀ x ∈ ids, x ∈ kahn_list g ids := by
    by_contra hne
    push_neg at hne
    obtain ⟨t, ht, htn⟩ := hne
    have hmemS : ∀ x, x ∈ ids.toFinset.filter (fun x => x ∉ kahn_list g ids)
        ↔ (x ∈ ids ∧ x ∉ kahn_list g ids) := by
      intro x
      simp [List.mem_toFinset]
    have hne2 : (ids.toFinset.filter (fun x => x ∉ kahn_list g ids)).Nonempty :=
      ⟨t, (hmemS t).2 ⟨ht, htn⟩⟩
    have hstuck : ∀ s ∈ ids.toFinset.filter (fun x => x ∉ kahn_list g ids),
        ∃ d ∈ ids.toFinset.filter (fun x => x ∉ kahn_list g ids), StepIn g ids d s := by
      intro s hs
      obtain ⟨hsi, hsn⟩ := (hmemS s).1 hs
      obtain ⟨d, hd, hdi, hdn⟩ := r5 s hsi hsn
      exact ⟨d, (hmemS d).2 ⟨hdi, hdn⟩, ⟨hdi, hsi, hd⟩⟩
    obtain ⟨t2, ht2, hcyc⟩ := cycle_of_stuck g ids _ hne2 hstuck
    exact hnc ⟨t2, ((hmemS t2).1 ht2).1, hcyc⟩
  have hiff : ∀ x, x ∈ kahn_list g ids ↔ x ∈ ids :=
    fun a => ⟨fun h => r2 a h, fun h => hall a h⟩
  refine ⟨hiff, ?_⟩
  exact ((List.perm_ext_iff_of_nodup r1 hids).2 hiff).length_eq

theorem stepIn_index_lt (g : Graph) (ids : List String) {R : List String}
    (hnd : R.Nodup) (htopo : TopoFrom g ids [] R) (hall : ∀ x ∈ ids, x ∈ R) :
    ∀ {a b : String}, Relation.TransGen (StepIn g ids) a b →
      List.indexOf a R < List.indexOf b R := by
  have hone : ∀ {a b : String}, StepIn g ids a b →
      List.indexOf a R < List.indexOf b R := by
    intro a b hstep
    obtain ⟨hai, hbi, hadep⟩ := hstep
    have hor := topoFrom_ordering g ids R [] htopo (by simpa using hnd)
      b (hall b hbi) a hadep hai
    rcases hor with h | ⟨_, hlt⟩
    · simp at h
    · exact hlt
  intro a b h
  induction h with
  | single hstep => exact hone hstep
  | tail _ hstep ih2 => exact lt_trans ih2 (hone hstep)

theorem kahn_list_incomplete_of_cycle (g : Graph) (ids : List String) (hids : ids.Nodup)
    (hdeps : ∀ t ∈ ids, (depsOf g t).Nodup) (hc : HasCycle g ids) :
    (kahn_list g ids).length ≠ ids.length := by
  obtain ⟨r1, r2, r3, _⟩ := kahn_list_spec g ids hids hdeps
  intro hlen
  have hall : ∀ x ∈ ids, x ∈ kahn_list g ids :=
    mem_of_maximal_nodup r1 hids r2 (by omega)
  obtain ⟨t, _, hcyc⟩ := hc
  exact lt_irrefl _ (stepIn_index_lt g ids r1 r3 hall hcyc)

theorem topological_sort_ok (g : Graph) (ids : List String) (hids : ids.Nodup)
    (hdeps : ∀ t ∈ ids, (depsOf g t).Nodup) (hnc : ¬ HasCycle g ids) :
    topological_sort g ids = .ok (kahn_list g ids) := by
  rw [topological_sort, if_pos (kahn_list_complete g ids hids hdeps hnc).2]

theorem topological_sort_error (g : Graph) (ids : List String) (hids : ids.Nodup)
    (hdeps : ∀ t ∈ ids, (depsOf g t).Nodup) (hc : HasCycle g ids) :
    topological_sort g ids = .error (ids.toFinset \ (kahn_list g ids).toFinset) ∧
    (ids.toFinset \ (kahn_list g ids).toFinset).Nonempty := by
  rw [topological_sort, if_neg (kahn_list_incomplete_of_cycle g ids hids hdeps hc)]
  refine ⟨rfl, ?_⟩
  obtain ⟨r1, r2, _, _⟩ := kahn_list_spec g ids hids hdeps
  by_contra hempty
  rw [Finset.not_nonempty_iff_eq_empty, Finset.sdiff_eq_empty_iff_subset] at hempty
  have hall : ∀ x ∈ ids, x ∈ kahn_list g ids := by
    intro x hx
    exact List.mem_toFinset.1 (hempty (List.mem_toFinset.2 hx))
  have hperm : (kahn_list g ids).Perm ids :=
    (List.perm_ext_iff_of_nodup r1 hids).2 (fun a => ⟨fun h => r2 a h, fun h => hall a h⟩)
  exact (kahn_list_incomplete_of_cycle g ids hids hdeps hc) hperm.length_eq

/-! ## Enumeration-order independence (determinism across set iteration orders) -/

theorem kahn_loop_perm (g : Graph) {l₁ l₂ : List String} (h₁ : l₁.Nodup)
    (hp : l₁.Perm l₂) :
    ∀ (fuel : Nat) (q₁ q₂ : List String) (deg : String → Int) (acc : List String),
      q₁.Perm q₂ →
      kahn_loop g l₁ fuel q₁ deg acc = kahn_loop g l₂ fuel q₂ deg acc := by
  have h₂ : l₂.Nodup := hp.nodup_iff.1 h₁
  intro fuel
  induction fuel with
  | zero =>
    intro q₁ q₂ deg acc _
    rfl
  | succ fuel ih =>
    intro q₁ q₂ deg acc hq
    have hs : sortQueue q₁ = sortQueue q₂ := sortQueue_eq_of_perm hq
    rw [kahn_loop_succ, kahn_loop_succ, ← hs]
    rcases hsq : sortQueue q₁ with _ | ⟨t, rest⟩
    · rfl
    · dsimp only
      have hdegeq : (dec_pass g l₁ t deg).1 = (dec_pass g l₂ t deg).1 := by
        funext x
        rw [dec_pass_deg g l₁ t deg h₁ x, dec_pass_deg g l₂ t deg h₂ x]
        by_cases hc : x ∈ l₁ ∧ t ∈ depsOf g x
        · rw [if_pos hc, if_pos ⟨hp.mem_iff.1 hc.1, hc.2⟩]
        · rw [if_neg hc, if_neg (fun hc2 => hc ⟨hp.mem_iff.2 hc2.1, hc2.2⟩)]
      have happ : (dec_pass g l₁ t deg).2.Perm (dec_pass g l₂ t deg).2 := by
        rw [dec_pass_appends g l₁ t deg h₁, dec_pass_appends g l₂ t deg h₂]
        exact hp.filter _
      rw [hdegeq]
      exact ih _ _ _ _ (happ.append_left rest)

theorem indeg_perm (g : Graph) {l₁ l₂ : List String} (hp : l₁.Perm l₂) :
    indeg g l₁ = indeg g l₂ := by
  funext t
  rw [indeg, indeg]
  have he : (depsOf g t).filter (fun d => decide (d ∈ l₁))
      = (depsOf g t).filter (fun d => decide (d ∈ l₂)) :=
    List.filter_congr (fun d _ => by simp [hp.mem_iff])
  rw [he]

theorem kahn_list_perm (g : Graph) {l₁ l₂ : List String} (h₁ : l₁.Nodup)
    (hp : l₁.Perm l₂) :
    kahn_list g l₁ = kahn_list g l₂ := by
  rw [kahn_list, kahn_list, hp.length_eq, indeg_perm g hp]
  exact kahn_loop_perm g h₁ hp l₂.length _ _ _ _ (hp.filter _)

theorem topological_sort_perm (g : Graph) {l₁ l₂ : List String} (h₁ : l₁.Nodup)
    (hp : l₁.Perm l₂) :
    topological_sort g l₁ = topological_sort g l₂ := by
  have hfin : l₁.toFinset = l₂.toFinset := by
    ext a
    simp [hp.mem_iff]
  rw [topological_sort, topological_sort, kahn_list_perm g h₁ hp, hp.length_eq, hfin]

theorem order_and_limit_perm (g : Graph) (cfg : GraphConfig) {l₁ l₂ : List String}
    (h₁ : l₁.Nodup) (hp : l₁.Perm l₂) :
    order_and_limit g cfg l₁ = order_and_limit g cfg l₂ := by
  rw [order_and_limit, order_and_limit, topological_sort_perm g h₁ hp]

/-! ## Facts about the concrete ontology, established by computation -/

theorem VG_deps_nodup (t : String) : (depsOf VG t).Nodup := by
  rw [depsOf]
  rcases hl : Graph.get? VG t with _ | n
  · simp
  · have hfact : ∀ p ∈ VG, p.2.dependencies.Nodup := by decide
    exact hfact (t, n) (mem_of_lookup hl)

theorem VG_no_self_dep (t : String) : t ∉ depsOf VG t := by
  rw [depsOf]
  rcases hl : Graph.get? VG t with _ | n
  · simp
  · have hfact : ∀ p ∈ VG, p.1 ∉ p.2.dependencies := by decide
    exact hfact (t, n) (mem_of_lookup hl)

theorem VG_weight_ge_one (t : String) : 1 ≤ get_weight VG t := by
  rw [get_weight]
  rcases hl : Graph.get? VG t with _ | n
  · norm_num
  · have hfact : ∀ p ∈ VG, 1 ≤ p.2.risk_weight := by decide
    exact hfact (t, n) (mem_of_lookup hl)

theorem VG_acyclic (ids : List String) : ¬ HasCycle VG ids := by
  have hrank : ∀ a b : String, StepIn VG ids a b → rankVG a < rankVG b := by
    intro a b hstep
    obtain ⟨_, _, hdep⟩ := hstep
    rw [depsOf] at hdep
    rcases hl : Graph.get? VG b with _ | n
    · rw [hl] at hdep
      simp at hdep
    · rw [hl] at hdep
      have hfact : ∀ p ∈ VG, ∀ d ∈ p.2.dependencies, rankVG d < rankVG p.1 := by decide
      exact hfact (b, n) (mem_of_lookup hl) a hdep
  rintro ⟨t, _, hcyc⟩
  have hmono : ∀ {a b : String}, Relation.TransGen (StepIn VG ids) a b →
      rankVG a < rankVG b := by
    intro a b h
    induction h with
    | single h => exact hrank _ _ h
    | tail _ h ih => exact lt_trans ih (hrank _ _ h)
  exact lt_irrefl _ (hmono hcyc)

theorem VG_id_key : ∀ p ∈ VG, p.2.id = p.1 := by decide

theorem VG_dep_resolves : ∀ p ∈ VG, ∀ d ∈ p.2.dependencies, (Graph.get? VG d).isSome := by
  decide

/-! ## Pipeline-level lemmas -/

theorem activated_tasks_nodup (g : Graph) (cfg : GraphConfig) (cls : Classification) :
    (activated_tasks g cfg cls).Nodup :=
  List.nodup_dedup _

theorem closure_nodup (g : Graph) (cfg : GraphConfig) (cls : Classification) :
    (add_dependencies g (activated_tasks g cfg cls)).Nodup :=
  (add_dependencies_spec g _ (activated_tasks_nodup g cfg cls)).1

theorem mem_seed_resolves (g : Graph) (cfg : GraphConfig) (cls : Classification)
    (hid : ∀ p ∈ g, p.2.id = p.1) :
    ∀ x ∈ activated_tasks g cfg cls, (Graph.get? g x).isSome := by
  intro x hx
  rw [activated_tasks] at hx
  rw [List.mem_dedup, List.mem_append] at hx
  rcases hx with hm | ha
  · rw [List.mem_map] at hm
    obtain ⟨node, hnode, hxid⟩ := hm
    rw [get_mandatory_tasks, List.mem_filter] at hnode
    obtain ⟨hmem, _⟩ := hnode
    rw [List.mem_map] at hmem
    obtain ⟨p, hp, hpn⟩ := hmem
    have hxp : x = p.1 := by
      rw [← hxid, ← hpn]
      exact hid p hp
    rw [hxp]
    exact lookup_isSome_of_mem (show (p.1, p.2) ∈ g from hp)
  · rw [List.mem_map] at ha
    obtain ⟨p, hp, hxid⟩ := ha
    rw [← hxid]
    exact lookup_isSome_of_mem (show (p.1, p.2) ∈ g from (List.mem_filter.1 hp).1)

theorem mem_closure_resolves (g : Graph) (cfg : GraphConfig) (cls : Classification)
    (hid : ∀ p ∈ g, p.2.id = p.1)
    (hclosed : ∀ p ∈ g, ∀ d ∈ p.2.dependencies, (Graph.get? g d).isSome) :
    ∀ x ∈ add_dependencies g (activated_tasks g cfg cls), (Graph.get? g x).isSome := by
  intro x hx
  rw [mem_add_dependencies (activated_tasks_nodup g cfg cls)] at hx
  obtain ⟨a, ha, hr⟩ := hx
  induction hr with
  | refl => exact mem_seed_resolves g cfg cls hid a ha
  | @tail b c hab hstep ih =>
    rw [DepStep, depsOf] at hstep
    rcases hl : Graph.get? g b with _ | n
    · rw [hl] at hstep
      simp at hstep
    · rw [hl] at hstep
      exact hclosed (b, n) (mem_of_lookup hl) c hstep

theorem topological_sort_VG_ok (cfg : GraphConfig) (cls : Classification) :
    topological_sort VG (add_dependencies VG (activated_tasks VG cfg cls))
      = .ok (kahn_list VG (add_dependencies VG (activated_tasks VG cfg cls))) :=
  topological_sort_ok VG _ (closure_nodup VG cfg cls) (fun t _ => VG_deps_nodup t)
    (VG_acyclic _)

theorem select_list_eq (cfg : GraphConfig) (cls : Classification) :
    get_required_tasks VG cfg cls = .ok (select_list cfg cls) ∧
    select_list cfg cls =
      (if cfg.max_tasks
          < (kahn_list VG (add_dependencies VG (activated_tasks VG cfg cls))).length
       then (prioritize_tasks VG
          (kahn_list VG (add_dependencies VG (activated_tasks VG cfg cls)))).take
          cfg.max_tasks
       else kahn_list VG (add_dependencies VG (activated_tasks VG cfg cls))) := by
  have h1 : get_required_tasks VG cfg cls = .ok
      (if cfg.max_tasks
          < (kahn_list VG (add_dependencies VG (activated_tasks VG cfg cls))).length
       then (prioritize_tasks VG
          (kahn_list VG (add_dependencies VG (activated_tasks VG cfg cls)))).take
          cfg.max_tasks
       else kahn_list VG (add_dependencies VG (activated_tasks VG cfg cls))) := by
    rw [get_required_tasks, order_and_limit, topological_sort_VG_ok cfg cls]
  refine ⟨?_, ?_⟩
  · rw [h1, select_list, h1]
  · rw [select_list, h1]

/-! ## Lemmas about prioritization and truncation -/

theorem sort_by_key_perm {κ : Type} [LinearOrder κ] (key : String → κ) (l : List String) :
    (sort_by_key key l).Perm l := by
  rw [sort_by_key]
  have h := (List.perm_insertionSort (keyRel key) l.enum).map Prod.snd
  rwa [List.enum_map_snd] at h

theorem sort_by_key_sorted {κ : Type} [LinearOrder κ] (key : String → κ) (l : List String) :
    (sort_by_key key l).Pairwise (fun a b => key a ≤ key b) := by
  rw [sort_by_key]
  refine List.Pairwise.map Prod.snd ?_ (List.sorted_insertionSort (keyRel key) l.enum)
  intro a b hab
  rw [keyRel] at hab
  rcases (Prod.Lex.le_iff _ _).1 hab with h | ⟨h, _⟩
  · exact le_of_lt h
  · exact le_of_eq h

theorem prioritize_tasks_def (g : Graph) (ordered : List String) :
    prioritize_tasks g ordered
      = ordered.filter (fun t => ((Graph.get? g t).getD defaultNode).mandatory)
        ++ sort_by_key (priority_key g)
          (ordered.filter (fun t => decide (t ∉ ordered.filter
            (fun t2 => ((Graph.get? g t2).getD defaultNode).mandatory)))) := rfl

theorem nonmand_filter_eq (g : Graph) (ordered : List String) :
    ordered.filter (fun t => decide (t ∉ ordered.filter
        (fun t2 => ((Graph.get? g t2).getD defaultNode).mandatory)))
      = ordered.filter (fun t => ! ((Graph.get? g t).getD defaultNode).mandatory) := by
  apply List.filter_congr
  intro t ht
  cases hm : ((Graph.get? g t).getD defaultNode).mandatory with
  | false => simp [List.mem_filter, ht, hm]
  | true => simp [List.mem_filter, ht, hm]

theorem prioritize_tasks_perm (g : Graph) (ordered : List String) :
    (prioritize_tasks g ordered).Perm ordered := by
  rw [prioritize_tasks_def, nonmand_filter_eq]
  have h1 := sort_by_key_perm (priority_key g)
    (ordered.filter (fun t => ! ((Graph.get? g t).getD defaultNode).mandatory))
  have h2 := List.filter_append_perm
    (fun t => ((Graph.get? g t).getD defaultNode).mandatory) ordered
  exact (h1.append_left _).trans h2

theorem kahn_list_topo_index (g : Graph) (ids : List String) (hids : ids.Nodup)
    (hdeps : ∀ t ∈ ids, (depsOf g t).Nodup) :
    ∀ a b, b ∈ kahn_list g ids → a ∈ depsOf g b → a ∈ ids →
      a ∈ kahn_list g ids ∧
      List.indexOf a (kahn_list g ids) < List.indexOf b (kahn_list g ids) := by
  obtain ⟨r1, _, r3, _⟩ := kahn_list_spec g ids hids hdeps
  intro a b hb ha hai
  have hor := topoFrom_ordering g ids (kahn_list g ids) [] r3 (by simpa using r1) b hb a ha hai
  rcases hor with h | ⟨h1, h2⟩
  · simp at h
  · exact ⟨h1, h2⟩

theorem select_sub_closure (cfg : GraphConfig) (cls : Classification) :
    ∀ x ∈ select_list cfg cls, x ∈ add_dependencies VG (activated_tasks VG cfg cls) := by
  obtain ⟨_, h2⟩ := select_list_eq cfg cls
  intro x hx
  rw [h2] at hx
  obtain ⟨_, r2, _, _⟩ := kahn_list_spec VG (add_dependencies VG (activated_tasks VG cfg cls))
    (closure_nodup VG cfg cls) (fun t _ => VG_deps_nodup t)
  by_cases hc : cfg.max_tasks
      < (kahn_list VG (add_dependencies VG (activated_tasks VG cfg cls))).length
  · rw [if_pos hc] at hx
    have hx2 : x ∈ prioritize_tasks VG
        (kahn_list VG (add_dependencies VG (activated_tasks VG cfg cls))) :=
      (List.take_sublist _ _).subset hx
    have hx3 := (prioritize_tasks_perm VG _).mem_iff.1 hx2
    exact r2 x hx3
  · rw [if_neg hc] at hx
    exact r2 x hx

theorem select_resolves (cfg : GraphConfig) (cls : Classification) :
    ∀ x ∈ select_list cfg cls, (Graph.get? VG x).isSome := by
  intro x hx
  exact mem_closure_resolves VG cfg cls VG_id_key VG_dep_resolves x
    (select_sub_closure cfg cls x hx)

theorem select_list_nodup (cfg : GraphConfig) (cls : Classification) :
    (select_list cfg cls).Nodup := by
  obtain ⟨_, h2⟩ := select_list_eq cfg cls
  rw [h2]
  obtain ⟨r1, _, _, _⟩ := kahn_list_spec VG (add_dependencies VG (activated_tasks VG cfg cls))
    (closure_nodup VG cfg cls) (fun t _ => VG_deps_nodup t)
  by_cases hc : cfg.max_tasks
      < (kahn_list VG (add_dependencies VG (activated_tasks VG cfg cls))).length
  · rw [if_pos hc]
    exact List.Nodup.sublist (List.take_sublist _ _)
      ((prioritize_tasks_perm VG _).nodup_iff.2 r1)
  · rw [if_neg hc]
    exact r1

/-! ## Lemmas about coverage -/

theorem weights_sum_nonneg (l : List String) : 0 ≤ (l.map (get_weight VG)).sum := by
  apply List.sum_nonneg
  intro x hx
  rw [List.mem_map] at hx
  obtain ⟨t, _, ht⟩ := hx
  rw [← ht]
  exact le_trans (by norm_num) (VG_weight_ge_one t)

theorem weights_sum_pos {l : List String} (h : l ≠ []) :
    0 < (l.map (get_weight VG)).sum := by
  cases l with
  | nil => exact absurd rfl h
  | cons a l =>
    rw [List.map_cons, List.sum_cons]
    have h1 := VG_weight_ge_one a
    have h2 := weights_sum_nonneg l
    linarith

theorem weights_sum_le_of_subset :
    ∀ (l r : List String), l.Nodup → (∀ x ∈ l, x ∈ r) →
      (l.map (get_weight VG)).sum ≤ (r.map (get_weight VG)).sum := by
  intro l
  induction l with
  | nil =>
    intro r _ _
    exact weights_sum_nonneg r
  | cons a l ih =>
    intro r hnd hsub
    have hna : a ∉ l := (List.nodup_cons.1 hnd).1
    have hnl : l.Nodup := (List.nodup_cons.1 hnd).2
    obtain ⟨r₁, r₂, hr⟩ := List.append_of_mem (hsub a (List.mem_cons_self a l))
    have hsub2 : ∀ x ∈ l, x ∈ r₁ ++ r₂ := by
      intro x hx
      have hxr : x ∈ r := hsub x (List.mem_cons_of_mem _ hx)
      rw [hr] at hxr
      rcases List.mem_append.1 hxr with h | h
      · exact List.mem_append.2 (Or.inl h)
      · rcases List.mem_cons.1 h with he | h
        · exact absurd (he ▸ hx) hna
        · exact List.mem_append.2 (Or.inr h)
    have hsum := ih (r₁ ++ r₂) hnl hsub2
    rw [hr]
    rw [List.map_cons, List.sum_cons, List.map_append, List.sum_append] at *
    rw [List.map_cons, List.sum_cons]
    linarith

/-! ## Lemmas about `explain_selection` -/

theorem find?_congr_mem {p q : String → Bool} :
    ∀ (l : List String), (∀ x ∈ l, p x = q x) → l.find? p = l.find? q := by
  intro l
  induction l with
  | nil =>
    intro _
    rfl
  | cons a l ih =>
    intro h
    rw [List.find?_cons, List.find?_cons, h a (List.mem_cons_self a l)]
    cases hq : q a with
    | false => exact ih (fun x hx => h x (List.mem_cons_of_mem _ hx))
    | true => rfl

theorem reasons_for_eq_spec (g : Graph) (active required : List String) (t : String)
    (n : TaskGraphNode) (hns : t ∉ depsOf g t) :
    reasons_for g active required t n
      = (if spec_reasons g active required t n = [] then ["Unknown reason"]
         else spec_reasons g active required t n) := by
  have hf : required.find? (fun o => decide (t ∈ depsOf g o))
      = required.find? (fun o => decide (o ≠ t) && decide (t ∈ depsOf g o)) := by
    apply find?_congr_mem
    intro o _
    by_cases ho : t ∈ depsOf g o
    · have hot : o ≠ t := fun he => hns (he ▸ ho)
      simp [ho, hot]
    · simp [ho]
  rw [reasons_for, spec_reasons, hf]

theorem filterMap_explain (g : Graph) (active required : List String) :
    ∀ (l : List String), (∀ t ∈ l, (Graph.get? g t).isSome) →
      l.filterMap (fun task_id => (Graph.get? g task_id).map
          (fun node => (task_id, reasons_for g active required task_id node)))
        = l.map (fun task_id =>
            (task_id, reasons_for g active required task_id
              ((Graph.get? g task_id).getD defaultNode))) := by
  intro l
  induction l with
  | nil =>
    intro _
    rfl
  | cons t l ih =>
    intro h
    rcases hl : Graph.get? g t with _ | n
    · have hsome := h t (List.mem_cons_self t l)
      rw [hl] at hsome
      simp at hsome
    · rw [List.filterMap_cons, List.map_cons, hl]
      rw [ih (fun x hx => h x (List.mem_cons_of_mem _ hx))]
      rfl

/-! ## Shared characterizations used by the claim theorems -/

theorem prioritize_eq_parts (g : Graph) (l : List String) :
    prioritize_tasks g l
      = mandatory_part g l ++ sort_by_key (priority_key g) (non_mandatory_part g l) := by
  rw [prioritize_tasks_def, nonmand_filter_eq]
  rfl

theorem select_list_cases (cfg : GraphConfig) (cls : Classification) :
    select_list cfg cls
      = if cfg.max_tasks < (ordered_vg cfg cls).length
        then (mandatory_part VG (ordered_vg cfg cls)
          ++ sort_by_key (priority_key VG) (non_mandatory_part VG (ordered_vg cfg cls))).take
          cfg.max_tasks
        else ordered_vg cfg cls := by
  obtain ⟨_, h2⟩ := select_list_eq cfg cls
  rw [h2, ← prioritize_eq_parts]
  rfl

theorem calculate_coverage_eq (executed required : List String) :
    calculate_coverage VG executed required
      = if required = [] then 1
        else ((executed.filter (fun t => decide (t ∈ required))).map (get_weight VG)).sum
          / ((required.map (get_weight VG)).sum) := by
  rw [calculate_coverage]
  by_cases hr : required = []
  · rw [if_pos hr, if_pos hr]
  · rw [if_neg hr, if_neg hr]
    dsimp only
    rw [if_pos (weights_sum_pos hr)]

/-! ## The claims -/

/-- C1: `get_required_tasks` is deterministic.  The only nondeterminism a
CPython run could introduce is the iteration order of the two internal sets
(the seed set and the closure set `all_required`); for ANY enumerations of
those sets the engine returns the canonical list, so repeated calls with the
same classification and config yield identical ordered lists. -/
theorem c1_select_deterministic (cfg : GraphConfig) (cls : Classification)
    (s c : List String) (hs : s.Perm (activated_tasks VG cfg cls))
    (hc : c.Perm (add_dependencies VG s)) :
    order_and_limit VG cfg c = get_required_tasks VG cfg cls := by
  have hsnd : s.Nodup := hs.nodup_iff.2 (activated_tasks_nodup VG cfg cls)
  have hclosure : (add_dependencies VG s).Perm
      (add_dependencies VG (activated_tasks VG cfg cls)) :=
    add_dependencies_perm VG hsnd hs
  have hcnodup : c.Nodup := hc.nodup_iff.2 (add_dependencies_spec VG s hsnd).1
  rw [get_required_tasks]
  exact order_and_limit_perm VG cfg hcnodup (hc.trans hclosure)

/-- Witness for C1: at a concrete classification, reversed enumerations of
both internal sets still produce the canonical selection. -/
theorem c1_select_deterministic_witness :
    ((activated_tasks VG {} [("performance", mkRat 4 5)]).reverse.Perm
        (activated_tasks VG {} [("performance", mkRat 4 5)])) ∧
    ((add_dependencies VG
        (activated_tasks VG {} [("performance", mkRat 4 5)]).reverse).reverse.Perm
      (add_dependencies VG (activated_tasks VG {} [("performance", mkRat 4 5)]).reverse)) ∧
    order_and_limit VG {}
        (add_dependencies VG
          (activated_tasks VG {} [("performance", mkRat 4 5)]).reverse).reverse
      = get_required_tasks VG {} [("performance", mkRat 4 5)] :=
  ⟨List.reverse_perm _, List.reverse_perm _,
    c1_select_deterministic {} [("performance", mkRat 4 5)] _ _
      (List.reverse_perm _) (List.reverse_perm _)⟩

/-- C2: when no truncation occurs (the topologically sorted list does not
exceed `max_tasks`, so it is returned as is), the result is topologically
valid: if `b`'s dependency list contains `a` and both are in the result, `a`
comes strictly before `b`. -/
theorem c2_topological_validity (cfg : GraphConfig) (cls : Classification)
    (h : (ordered_vg cfg cls).length ≤ cfg.max_tasks)
    (a b : String) (ha : a ∈ select_list cfg cls) (hb : b ∈ select_list cfg cls)
    (hdep : a ∈ depsOf VG b) :
    List.indexOf a (select_list cfg cls) < List.indexOf b (select_list cfg cls) := by
  have hnt : select_list cfg cls = ordered_vg cfg cls := by
    rw [select_list_cases, if_neg (by omega)]
  rw [hnt] at ha hb ⊢
  have hai : a ∈ closure_vg cfg cls :=
    (kahn_list_spec VG (closure_vg cfg cls) (closure_nodup VG cfg cls)
      (fun t _ => VG_deps_nodup t)).2.1 a ha
  exact (kahn_list_topo_index VG (closure_vg cfg cls) (closure_nodup VG cfg cls)
    (fun t _ => VG_deps_nodup t) a b hb hdep hai).2

/-- Witness for C2 at a concrete input: `baseline_correctness_check` (a
dependency of `throughput_benchmark`) is placed strictly before it. -/
theorem c2_topological_validity_witness :
    (ordered_vg {} [("performance", mkRat 4 5)]).length ≤ GraphConfig.max_tasks {} ∧
    "baseline_correctness_check" ∈ select_list {} [("performance", mkRat 4 5)] ∧
    "throughput_benchmark" ∈ select_list {} [("performance", mkRat 4 5)] ∧
    "baseline_correctness_check" ∈ depsOf VG "throughput_benchmark" ∧
    List.indexOf "baseline_correctness_check" (select_list {} [("performance", mkRat 4 5)])
      < List.indexOf "throughput_benchmark" (select_list {} [("performance", mkRat 4 5)]) :=
  ⟨by decide, by decide, by decide, by decide,
    c2_topological_validity {} [("performance", mkRat 4 5)] (by decide)
      "baseline_correctness_check" "throughput_benchmark" (by decide) (by decide) (by decide)⟩

/-- C3 (code bug): `GraphConfig.include_mandatory` is never consulted by the
engine, so the claim is false on the code.  Flipping the flag changes
nothing (an identity the kernel certifies directly from the definitions),
and with `include_mandatory := false` and an empty classification the seed
set and the returned list still contain the mandatory node
`baseline_correctness_check`, although the claim says a mandatory node may
then be seeded only when one of its dimensions is active. -/
theorem c3_include_mandatory_ignored :
    (∀ (th : ℚ) (m : Nat) (cls : Classification),
      get_required_tasks VG
          { dimension_threshold := th, include_mandatory := false, max_tasks := m } cls
        = get_required_tasks VG
          { dimension_threshold := th, include_mandatory := true, max_tasks := m } cls) ∧
    "baseline_correctness_check" ∈ activated_tasks VG
      { dimension_threshold := mkRat 1 5, include_mandatory := false, max_tasks := 20 }
      [] ∧
    (get_required_tasks VG
        { dimension_threshold := mkRat 1 5, include_mandatory := false, max_tasks := 20 }
        []).toOption
      = some ["baseline_correctness_check"] :=
  ⟨fun _ _ _ => rfl, by decide, by decide⟩

/-- C4 counterexample: in `ghostGraph` the dependency id `"ghost"` does not
resolve, yet `_add_dependencies` puts it INTO the closure and the ordered
list returned by `get_required_tasks` contains it — it is not "dropped from
the closure" as the claim states (no exception is raised either). -/
theorem c4_counterexample :
    Graph.get? ghostGraph "ghost" = none ∧
    "ghost" ∈ add_dependencies ghostGraph ["b"] ∧
    (get_required_tasks ghostGraph
        { dimension_threshold := mkRat 1 5, include_mandatory := true, max_tasks := 20 }
        []).toOption
      = some ["ghost", "b"] :=
  ⟨by decide, by decide, by decide⟩

/-- C4 amended: a dependency id that does not resolve is NOT dropped: the
closure produced by `_add_dependencies` contains the seed and is closed
under the dependency lists of its resolvable members — including ids that do
not resolve (which are added but never expanded); no exception is raised
(the function is total). -/
theorem c4_unresolved_added_not_dropped (g : Graph) (seed : List String)
    (h : seed.Nodup) :
    (∀ x ∈ seed, x ∈ add_dependencies g seed) ∧
    (∀ t ∈ add_dependencies g seed, ∀ d ∈ depsOf g t, d ∈ add_dependencies g seed) :=
  ⟨(add_dependencies_spec g seed h).2.1, (add_dependencies_spec g seed h).2.2.1⟩

/-- Witness for the amended C4: the unresolvable id `"ghost"` is in the
closure of `{"b"}` in `ghostGraph`. -/
theorem c4_unresolved_added_not_dropped_witness :
    List.Nodup ["b"] ∧ "ghost" ∈ add_dependencies ghostGraph ["b"] :=
  ⟨by decide,
    (c4_unresolved_added_not_dropped ghostGraph ["b"] (by decide)).2 "b" (by decide)
      "ghost" (by decide)⟩

/-- C5: the topological sort places fewer nodes than the closure set
contains exactly when the induced subgraph has a cycle; in that case the
selection fails with a structural error naming exactly the unplaced ids
(`task_ids - set(sorted_tasks)`) and returns no partial list, and for
acyclic inputs no such error is raised. -/
theorem c5_cycle_detection (g : Graph) (ids : List String) (hids : ids.Nodup)
    (hdeps : ∀ t ∈ ids, (depsOf g t).Nodup) :
    ((kahn_list g ids).length < ids.length ↔ HasCycle g ids) ∧
    (HasCycle g ids →
      topological_sort g ids = .error (ids.toFinset \ (kahn_list g ids).toFinset) ∧
      (ids.toFinset \ (kahn_list g ids).toFinset).Nonempty ∧
      ∀ cfg, order_and_limit g cfg ids
        = .error (ids.toFinset \ (kahn_list g ids).toFinset)) ∧
    (¬ HasCycle g ids → topological_sort g ids = .ok (kahn_list g ids)) := by
  obtain ⟨r1, r2, _, _⟩ := kahn_list_spec g ids hids hdeps
  have hle : (kahn_list g ids).length ≤ ids.length := nodup_subset_length r1 r2
  refine ⟨⟨?_, ?_⟩, ?_, topological_sort_ok g ids hids hdeps⟩
  · intro hlt
    by_contra hnc
    have := (kahn_list_complete g ids hids hdeps hnc).2
    omega
  · intro hc
    have := kahn_list_incomplete_of_cycle g ids hids hdeps hc
    omega
  · intro hc
    obtain ⟨he, hne⟩ := topological_sort_error g ids hids hdeps hc
    refine ⟨he, hne, ?_⟩
    intro cfg
    rw [order_and_limit, he]

/-- Witness for C5: the spec's test-only cyclic ontology A→B→A; selection
fails with a structural error naming exactly `{A, B}`. -/
theorem c5_cycle_detection_witness :
    List.Nodup ["A", "B"] ∧
    topological_sort cycleGraph ["A", "B"] = .error ({"A", "B"} : Finset String) := by
  have hcyc : HasCycle cycleGraph ["A", "B"] := by
    refine ⟨"A", by decide, ?_⟩
    exact Relation.TransGen.head
      (show StepIn cycleGraph ["A", "B"] "A" "B" from ⟨by decide, by decide, by decide⟩)
      (Relation.TransGen.single
        (show StepIn cycleGraph ["A", "B"] "B" "A" from ⟨by decide, by decide, by decide⟩))
  have h := (c5_cycle_detection cycleGraph ["A", "B"] (by decide) (by decide)).2.1 hcyc
  refine ⟨by decide, ?_⟩
  have hset : (["A", "B"].toFinset \ (kahn_list cycleGraph ["A", "B"]).toFinset)
      = ({"A", "B"} : Finset String) := by decide
  rw [h.1, hset]

/-- C6: whenever the ordered list exceeds `max_tasks`, the result is the
mandatory ids (kept in their relative order) followed by the non-mandatory
ids stably sorted by the priority key — ascending
`(0/1 mandatory flag, -risk_weight, dependency count)`, i.e. descending
`risk_weight` then ascending dependency count — truncated to exactly
`max_tasks` elements. -/
theorem c6_truncation (cfg : GraphConfig) (cls : Classification)
    (h : cfg.max_tasks < (ordered_vg cfg cls).length) :
    select_list cfg cls
      = (mandatory_part VG (ordered_vg cfg cls)
          ++ sort_by_key (priority_key VG) (non_mandatory_part VG (ordered_vg cfg cls))).take
          cfg.max_tasks ∧
    (sort_by_key (priority_key VG) (non_mandatory_part VG (ordered_vg cfg cls))).Perm
      (non_mandatory_part VG (ordered_vg cfg cls)) ∧
    (sort_by_key (priority_key VG) (non_mandatory_part VG (ordered_vg cfg cls))).Pairwise
      (fun a b => priority_key VG a ≤ priority_key VG b) ∧
    (select_list cfg cls).length = cfg.max_tasks := by
  have he : select_list cfg cls
      = (mandatory_part VG (ordered_vg cfg cls)
          ++ sort_by_key (priority_key VG) (non_mandatory_part VG (ordered_vg cfg cls))).take
          cfg.max_tasks := by
    rw [select_list_cases, if_pos h]
  refine ⟨he, sort_by_key_perm _ _, sort_by_key_sorted _ _, ?_⟩
  rw [he, List.length_take]
  have hlen : (mandatory_part VG (ordered_vg cfg cls)
      ++ sort_by_key (priority_key VG) (non_mandatory_part VG (ordered_vg cfg cls))).length
      = (ordered_vg cfg cls).length := by
    rw [← prioritize_eq_parts]
    exact (prioritize_tasks_perm VG _).length_eq
  omega

/-- Witness for C6: the scenario with `max_tasks = 2` and five eligible
nodes, exactly one of which is mandatory: the result has length 2 and the
mandatory node occupies the first position. -/
theorem c6_truncation_witness :
    cfgTrunc.max_tasks < (ordered_vg cfgTrunc clsCompat).length ∧
    (ordered_vg cfgTrunc clsCompat).length = 5 ∧
    mandatory_part VG (ordered_vg cfgTrunc clsCompat) = ["baseline_correctness_check"] ∧
    select_list cfgTrunc clsCompat
      = ["baseline_correctness_check", "backward_compatibility_test"] := by
  refine ⟨by decide, by decide, by decide, ?_⟩
  have h := (c6_truncation cfgTrunc clsCompat (by decide)).1
  rw [h]
  decide

/-- C7: `calculate_coverage` equals the weighted formula of the claim: the
sum of weights of executed ids that are members of the required list (an
executed id outside it contributes nothing) divided by the sum of weights of
all required ids, where an id not found in the ontology weighs `1.0`; an
empty required list yields `1.0`; in particular the three boundary values. -/
theorem c7_coverage_formula :
    (∀ (executed required : List String),
      calculate_coverage VG executed required
        = if required = [] then 1
          else ((executed.filter (fun t => decide (t ∈ required))).map (get_weight VG)).sum
            / ((required.map (get_weight VG)).sum)) ∧
    calculate_coverage VG [] [] = 1 ∧
    calculate_coverage VG [] ["a"] = 0 ∧
    calculate_coverage VG ["a"] [] = 1 := by
  refine ⟨calculate_coverage_eq, by rw [calculate_coverage_eq]; simp, ?_,
    by rw [calculate_coverage_eq]; simp⟩
  rw [calculate_coverage_eq]
  norm_num

/-- C8 counterexample: with a repeated executed id the coverage exceeds 1:
`calculate_coverage(["a", "a"], ["a"]) = 2.0`, refuting the claim that the
result always lies in `[0, 1]`. -/
theorem c8_counterexample :
    calculate_coverage VG ["a", "a"] ["a"] = 2 ∧
    ¬ calculate_coverage VG ["a", "a"] ["a"] ≤ 1 := by
  have h2 : calculate_coverage VG ["a", "a"] ["a"] = 2 := by
    have hf : (["a", "a"].filter (fun t => decide (t ∈ (["a"] : List String))))
        = ["a", "a"] := by decide
    have hw : get_weight VG "a" = 1 := by decide
    rw [calculate_coverage_eq, if_neg (by decide), hf]
    norm_num [hw, List.map_cons, List.map_nil, List.sum_cons, List.sum_nil]
  exact ⟨h2, by rw [h2]; norm_num⟩

/-- C8 amended: when the executed list has no duplicate ids (and for every
required list, including ones with repeats and unknown ids), the coverage
value lies in `[0, 1]`. -/
theorem c8_coverage_bounds (executed required : List String) (h : executed.Nodup) :
    0 ≤ calculate_coverage VG executed required ∧
    calculate_coverage VG executed required ≤ 1 := by
  rw [calculate_coverage_eq]
  by_cases hr : required = []
  · rw [if_pos hr]
    norm_num
  · rw [if_neg hr]
    have hpos := weights_sum_pos hr
    have hnum := weights_sum_nonneg (executed.filter (fun t => decide (t ∈ required)))
    have hle := weights_sum_le_of_subset (executed.filter (fun t => decide (t ∈ required)))
      required (h.filter _)
      (fun x hx => by simpa using (List.mem_filter.1 hx).2)
    constructor
    · exact div_nonneg hnum (le_of_lt hpos)
    · rw [div_le_one hpos]
      exact hle

/-- Witness for the amended C8 at a concrete input. -/
theorem c8_coverage_bounds_witness :
    List.Nodup ["a"] ∧
    (0 ≤ calculate_coverage VG ["a"] ["a", "b"] ∧
      calculate_coverage VG ["a"] ["a", "b"] ≤ 1) :=
  ⟨by decide, c8_coverage_bounds ["a"] ["a", "b"] (by decide)⟩

/-- C9 counterexample: truncation can keep a node whose only selection
reason (its dependent) was cut: with `max_tasks = 2` and classification
`{performance: 0.3}`, `auth_boundary_test` is selected but none of the three
claimed reason kinds applies to it (the spec-side reason list is empty), and
`explain_selection` maps it to `["Unknown reason"]` — so the returned list is
not of the form the claim describes. -/
theorem c9_counterexample :
    (explain_selection VG cfgTrunc clsPerf).toOption
      = some
        [("baseline_correctness_check",
          ["Mandatory task - always required",
            "Required as dependency of: auth_boundary_test"]),
          ("auth_boundary_test", ["Unknown reason"])] ∧
    "auth_boundary_test" ∈ select_list cfgTrunc clsPerf ∧
    spec_reasons VG (get_active_dimensions clsPerf cfgTrunc.dimension_threshold)
        (select_list cfgTrunc clsPerf)
        "auth_boundary_test" ((Graph.get? VG "auth_boundary_test").getD defaultNode)
      = [] :=
  ⟨by decide, by decide, by decide⟩

/-- C9 amended: the key list of `explain_selection` equals the selection (in
order), and each key maps to the reasons exactly as the claim describes them
(mandatory, then activation by the matching dimensions, then the first other
selected id depending on it) — except that when none of the three applies
the value is the fallback `["Unknown reason"]`. -/
theorem c9_explain_matches_selection (cfg : GraphConfig) (cls : Classification) :
    explain_selection VG cfg cls
      = .ok ((select_list cfg cls).map (fun task_id =>
          (task_id,
            if spec_reasons VG (get_active_dimensions cls cfg.dimension_threshold)
                (select_list cfg cls) task_id ((Graph.get? VG task_id).getD defaultNode)
              = []
            then ["Unknown reason"]
            else spec_reasons VG (get_active_dimensions cls cfg.dimension_threshold)
              (select_list cfg cls) task_id
              ((Graph.get? VG task_id).getD defaultNode)))) := by
  obtain ⟨h1, _⟩ := select_list_eq cfg cls
  rw [explain_selection, h1]
  dsimp only
  congr 1
  rw [filterMap_explain VG (get_active_dimensions cls cfg.dimension_threshold)
    (select_list cfg cls) (select_list cfg cls) (select_resolves cfg cls)]
  apply List.map_eq_map_iff.mpr
  intro t _
  rw [reasons_for_eq_spec VG (get_active_dimensions cls cfg.dimension_threshold)
    (select_list cfg cls) t ((Graph.get? VG t).getD defaultNode) (VG_no_self_dep t)]

/-- C10: `get_required_tasks` never raises on the concrete ontology and the
returned list contains no duplicate ids, on both the untruncated path (the
topological sort places each node exactly once) and the truncated one (the
mandatory and non-mandatory partitions are disjoint and the sort is a
permutation). -/
theorem c10_no_duplicates (cfg : GraphConfig) (cls : Classification) :
    get_required_tasks VG cfg cls = .ok (select_list cfg cls) ∧
    (select_list cfg cls).Nodup :=
  ⟨(select_list_eq cfg cls).1, select_list_nodup cfg cls⟩
